import Mathlib

/-!
Verification of the editor grid core (`src/editor/mod.rs`).

Shallow embedding conventions:
* `u64` / `usize` values become `Nat`; `i64` values become `Int` with
  `Int.toNat` at the places the source casts back to unsigned.
* Cell text is represented as its list of grapheme clusters
  (`List String`): grapheme segmentation is performed by the external
  `unicode_segmentation` crate, so `text.graphemes(true)` becomes the
  list itself, `text.repeat(n)` becomes joining `n` copies of the list,
  and `text.is_empty()` becomes list emptiness.  This assumes clusters
  do not merge across repeat boundaries, which holds for the inputs
  considered here.
* `Style` (module `style.rs`, not part of the sources provided) is
  modelled from the spec as an immutable value type with value
  equality: a bundle of foreground/background/special colors, the
  color payload abstracted to `Nat` identifiers.  `Arc<Style>` cloning
  is identity on the value.
* `Cursor` (module `cursor.rs`, not part of the sources provided) is
  modelled from the spec: position, enabled flag, mode list, shape and
  current style; `change_mode` looks the mode up by index and adopts
  its shape/style, resolving the style id against the style table.
* The `HashMap<u64, Arc<Style>>` of defined styles is modelled as a
  function `Nat → Option Style`; `insert` is pointwise update.
* Rust panics (`expect`, out-of-bounds indexing) are modelled by
  `Option`: `none` is a panic.  Plain `Vec` indexing that is in bounds
  whenever `grid.len() = dirty.len() = width*height` holds (the
  invariant proved below) is modelled with `List.getD` / `List.set`,
  which agree with the source on in-bounds accesses.
* `str::parse::<f32>` is external to the repository; it is abstracted
  as a parameter `pf : String → Option ℚ` threaded to `setOption`
  (the source name `set_option` is a Lean keyword).
* `println!` / `trace!` logging and the redraw-scheduler call on
  `Flush` perform no state mutation and are not modelled.
-/

/-- Modelled from the spec: color bundle (module `style.rs` missing from
the provided sources); foreground/background/special colors with the
color payload abstracted to `Nat` identifiers. -/
structure Colors where
  foreground : Option Nat
  background : Option Nat
  special : Option Nat
deriving DecidableEq, Repr

/-- Modelled from the spec: immutable style value with value equality
(module `style.rs` missing from the provided sources); text attributes
are omitted, they never influence the control flow verified here. -/
structure Style where
  colors : Colors
deriving DecidableEq, Repr

def Colors.new (foreground background special : Option Nat) : Colors :=
  ⟨foreground, background, special⟩

def Style.new (colors : Colors) : Style :=
  ⟨colors⟩

/-- Modelled from the spec: cursor shape variants (module `cursor.rs`
missing from the provided sources). -/
inductive CursorShape where
  | Block
  | Horizontal
  | Vertical
deriving DecidableEq, Repr

/-- Modelled from the spec: one mode descriptor of the cursor mode
table (module `cursor.rs` missing from the provided sources). -/
structure CursorMode where
  shape : Option CursorShape
  style_id : Option Nat
deriving DecidableEq, Repr

/-- Modelled from the spec: cursor state (module `cursor.rs` missing
from the provided sources). -/
structure Cursor where
  position : Nat × Nat
  enabled : Bool
  mode_list : List CursorMode
  shape : Option CursorShape
  style : Option Style
deriving DecidableEq, Repr

def Cursor.new : Cursor :=
  ⟨(0, 0), true, [], none, none⟩

/-- Modelled from the spec: `cursor.change_mode(mode_index, &defined_styles)`
looks the mode up by index in the mode table and adopts its shape and
style, resolving the style id against the style table. -/
def Cursor.change_mode (c : Cursor) (mode_index : Nat) (styles : Nat → Option Style) : Cursor :=
  match c.mode_list.get? mode_index with
  | some mode => { c with shape := mode.shape, style := mode.style_id.bind styles }
  | none => c

/-- `pub type GridCell = Option<(String, Option<Arc<Style>>)>`; the
`String` holds one grapheme cluster or is empty. -/
def GridCell := Option (String × Option Style)
deriving DecidableEq, Repr

/-- `DrawCommand` of `src/editor/mod.rs`; `scale` is `#[new(value = "1")]`. -/
structure DrawCommand where
  text : String
  cell_width : Nat
  grid_position : Nat × Nat
  style : Option Style
  scale : Nat
deriving DecidableEq, Repr

def DrawCommand.new (text : String) (cell_width : Nat) (grid_position : Nat × Nat)
    (style : Option Style) : DrawCommand :=
  ⟨text, cell_width, grid_position, style, 1⟩

/-- One run descriptor of a `GridLine` event (`crate::bridge::GridLineCell`,
declared outside the provided sources; fields as used by
`draw_grid_line_cell`).  `text` is the run text as its grapheme-cluster
list; `repeat_count` is the source field `repeat` (a Lean keyword). -/
structure GridLineCell where
  text : List String
  highlight_id : Option Nat
  repeat_count : Option Nat
deriving DecidableEq, Repr

/-- `crate::bridge::GuiOption`, as consumed by `set_option`. -/
inductive GuiOption where
  | GuiFont (font_description : String)
  | Other
deriving DecidableEq, Repr

/-- `crate::bridge::RedrawEvent`, the variants dispatched by
`handle_redraw_event`; `Unknown` stands for the `_ => {}` arm. -/
inductive RedrawEvent where
  | SetTitle (title : String)
  | ModeInfoSet (cursor_modes : List CursorMode)
  | OptionSet (gui_option : GuiOption)
  | ModeChange (mode_index : Nat)
  | BusyStart
  | BusyStop
  | Flush
  | Resize (width height : Nat)
  | DefaultColorsSet (colors : Colors)
  | HighlightAttributesDefine (id : Nat) (style : Style)
  | GridLine (row : Nat) (column_start : Nat) (cells : List GridLineCell)
  | Clear
  | CursorGoto (row column : Nat)
  | Scroll (top bottom left right : Nat) (rows columns : Int)
  | Unknown

/-- `pub struct Editor` of `src/editor/mod.rs`. -/
structure Editor where
  grid : List GridCell
  dirty : List Bool
  should_clear : Bool
  title : String
  size : Nat × Nat
  font_name : Option String
  font_size : Option ℚ
  cursor : Cursor
  default_style : Style
  defined_styles : Nat → Option Style
  previous_style : Option Style

/-- `Editor::cell_index`. -/
def Editor.cell_index (e : Editor) (x y : Nat) : Option Nat :=
  let width := e.size.1
  let height := e.size.2
  if x ≥ width ∨ y ≥ height then none else some (x + y * width)

/-- `Editor::is_dirty_cell`; the `self.dirty[idx]` access is in bounds
whenever the length invariant holds, so `getD` agrees with the source. -/
def Editor.is_dirty_cell (e : Editor) (x y : Nat) : Bool :=
  match e.cell_index x y with
  | some idx => e.dirty.getD idx false
  | none => false

/-- `Editor::set_dirty_cell`. -/
def Editor.set_dirty_cell (e : Editor) (x y : Nat) : Editor :=
  match e.cell_index x y with
  | some idx => { e with dirty := e.dirty.set idx true }
  | none => e

/-- `Editor::clear`. -/
def Editor.clear (e : Editor) : Editor :=
  { e with
    grid := List.replicate (e.size.1 * e.size.2) none,
    dirty := List.replicate (e.size.1 * e.size.2) true,
    should_clear := true }

/-- `Editor::resize`. -/
def Editor.resize (e : Editor) (new_size : Nat × Nat) : Editor :=
  Editor.clear { e with size := new_size }

/-- `Editor::new`; `INITIAL_DIMENSIONS` is a constant of the crate root
(outside the provided sources), kept as a parameter.  The concrete
default colors (white/black/grey) are abstracted to three identifiers. -/
def Editor.new (initial_dimensions : Nat × Nat) : Editor :=
  Editor.clear
    { grid := []
      dirty := []
      should_clear := true
      title := "Neovide"
      size := initial_dimensions
      font_name := none
      font_size := none
      cursor := Cursor.new
      default_style := Style.new (Colors.new (some 0) (some 1) (some 2))
      defined_styles := fun _ => none
      previous_style := none }

/-- `Editor::rows`: the row slices `grid[row*width .. (row+1)*width]`. -/
def Editor.rows (e : Editor) : List (List GridCell) :=
  (List.range e.size.2).map (fun row => (e.grid.drop (row * e.size.1)).take e.size.1)

/-- The style resolution `let style = match cell.highlight_id {...}` at
the top of `draw_grid_line_cell`:  `Some(0)` gives no style, any other
`Some(style_id)` gives the table lookup (`None` when absent), absence of
an id gives `previous_style`. -/
def resolve_style (defined_styles : Nat → Option Style) (previous_style : Option Style) :
    Option Nat → Option Style
  | some 0 => none
  | some style_id => defined_styles style_id
  | none => previous_style

/-- `text.repeat(times)` under the grapheme-cluster-list representation. -/
def textRepeat (text : List String) (times : Nat) : List String :=
  (List.replicate times text).flatten

/-- The `let mut text` block of `draw_grid_line_cell`: the cell text,
repeated `cell.repeat` times when a repeat count is present. -/
def expandText (cell : GridLineCell) : List String :=
  match cell.repeat_count with
  | some times => textRepeat cell.text times
  | none => cell.text

/-- One iteration of the grapheme loop of `draw_grid_line_cell`: the
pair `ic` is `(i, character)` from `text.graphemes(true).enumerate()`.
Note the source marks `*column_pos` dirty, not `i + *column_pos`. -/
def write_grapheme (row_index column_pos : Nat) (style : Option Style)
    (e : Editor) (ic : Nat × String) : Editor :=
  match e.cell_index (ic.1 + column_pos) row_index with
  | some cell_idx =>
    (({ e with grid := e.grid.set cell_idx (some (ic.2, style)) } : Editor)).set_dirty_cell
      column_pos row_index
  | none => e

/-- `Editor::draw_grid_line_cell`; returns the new editor and the new
`column_pos`, `none` when the `expect("Should not paint outside of grid")`
panics. -/
def draw_grid_line_cell (e : Editor) (row_index column_pos : Nat) (cell : GridLineCell) :
    Option (Editor × Nat) :=
  let style := resolve_style e.defined_styles e.previous_style cell.highlight_id
  let text := expandText cell
  if text.isEmpty then
    match e.cell_index column_pos row_index with
    | none => none
    | some cell_idx =>
      let e1 : Editor := { e with grid := e.grid.set cell_idx (some ("", style)) }
      let e2 := e1.set_dirty_cell column_pos row_index
      some ({ e2 with previous_style := style }, column_pos + 1)
  else
    let e1 := text.enum.foldl (write_grapheme row_index column_pos style) e
    some ({ e1 with previous_style := style }, column_pos + text.length)

/-- The cell loop of `Editor::draw_grid_line`. -/
def draw_grid_line_go (e : Editor) (row : Nat) (column_pos : Nat) :
    List GridLineCell → Option Editor
  | [] => some e
  | cell :: cells =>
    match draw_grid_line_cell e row column_pos cell with
    | some (e1, column_pos1) => draw_grid_line_go e1 row column_pos1 cells
    | none => none

/-- `Editor::draw_grid_line`; note the guard compares `row` against
`self.grid.len()` (i.e. `width*height`), not against the height.  The
`else` branch prints a diagnostic and leaves the editor unchanged. -/
def draw_grid_line (e : Editor) (row column_start : Nat) (cells : List GridLineCell) :
    Option Editor :=
  if row < e.grid.length then draw_grid_line_go e row column_start cells
  else some e

/-- Nested fn `command_matches` of `build_draw_commands`. -/
def command_matches (command : Option DrawCommand) (style : Option Style) : Bool :=
  match command with
  | some command => command.style == style
  | none => true

/-- Nested fn `add_command` of `build_draw_commands`. -/
def add_command (commands_list : List DrawCommand) (command : Option DrawCommand) :
    List DrawCommand :=
  match command with
  | some command => commands_list ++ [command]
  | none => commands_list

/-- Nested fn `add_character` of `build_draw_commands`. -/
def add_character (command : Option DrawCommand) (character : String)
    (row_index col_index : Nat) (style : Option Style) : Option DrawCommand :=
  match command with
  | some command =>
    some { command with text := command.text ++ character, cell_width := command.cell_width + 1 }
  | none => some (DrawCommand.new character 1 (col_index, row_index) style)

/-- The body of the per-cell loop of `build_draw_commands`; state is
`(draw_commands, command)`, `ic` is `(col_index, cell)`. -/
def row_cell_step (row_index : Nat) (st : List DrawCommand × Option DrawCommand)
    (ic : Nat × GridCell) : List DrawCommand × Option DrawCommand :=
  let draw_commands := st.1
  let command := st.2
  let col_index := ic.1
  match ic.2 with
  | some (character, style) =>
    if character.isEmpty then
      (add_command draw_commands (add_character command " " row_index col_index style), none)
    else
      if !(command_matches command style) then
        (add_command draw_commands command,
         add_character none character row_index col_index style)
      else
        (draw_commands, add_character command character row_index col_index style)
  | none =>
    if !(command_matches command none) then
      (add_command draw_commands command, add_character none " " row_index col_index none)
    else
      (draw_commands, add_character command " " row_index col_index none)

/-- One row of the command-building loop of `build_draw_commands`. -/
def build_row (row_index : Nat) (draw_commands : List DrawCommand) (row : List GridCell) :
    List DrawCommand :=
  let st := row.enum.foldl (row_cell_step row_index) (draw_commands, none)
  add_command st.1 st.2

/-- The dirty scan `for char_index in min..max { if is_dirty_cell ... }`
of the filter closure in `build_draw_commands`. -/
def dirty_in_span (e : Editor) (y lo hi : Nat) : Bool :=
  (List.range' lo (hi - lo)).any (fun char_index => e.is_dirty_cell char_index y)

/-- The filter closure of `build_draw_commands`. -/
def command_filter (e : Editor) (width : Nat) (command : DrawCommand) : Bool :=
  let x := command.grid_position.1
  let y := command.grid_position.2
  let lo := (max ((x : Int) - 1) 0).toNat
  let hi := min (x + command.cell_width + 1) width
  dirty_in_span e y lo hi

/-- `Editor::build_draw_commands`: returns `(draw_commands, should_clear)`
and the mutated editor (dirty array reset, `should_clear` reset). -/
def build_draw_commands (e : Editor) : (List DrawCommand × Bool) × Editor :=
  let draw_commands :=
    e.rows.enum.foldl (fun acc rrow => build_row rrow.1 acc rrow.2) []
  let should_clear := e.should_clear
  let width := e.size.1
  let height := e.size.2
  let filtered := draw_commands.filter (command_filter e width)
  ((filtered, should_clear),
   { e with dirty := List.replicate (width * height) false, should_clear := false })

/-- The i64 range `a..b` of the scroll loops, as a list. -/
def intRange (a b : Int) : List Int :=
  (List.range (b - a).toNat).map (fun i : Nat => a + (i : Int))

/-- The body of the inner (column) scroll loop of `Editor::scroll_region`:
copy `(x, y)` to `(x - cols, y - rows)` when both indices are in bounds,
marking the destination dirty.  The `self.grid[source_idx]` read is in
bounds whenever the length invariant holds, so `getD` agrees with the
source. -/
def scroll_copy_cell (rows cols : Int) (y : Int) (e : Editor) (x : Int) : Editor :=
  let dest_x := x - cols
  let dest_y := y - rows
  match e.cell_index x.toNat y.toNat, e.cell_index dest_x.toNat dest_y.toNat with
  | some source_idx, some dest_idx =>
    (({ e with grid := e.grid.set dest_idx (e.grid.getD source_idx none) } : Editor)).set_dirty_cell
      dest_x.toNat dest_y.toNat
  | _, _ => e

/-- The body of the outer (row) scroll loop of `Editor::scroll_region`. -/
def scroll_row (left right : Nat) (rows cols : Int) (e : Editor) (y : Int) : Editor :=
  let dest_y := y - rows
  if 0 ≤ dest_y ∧ dest_y < (e.size.2 : Int) then
    let x_iter :=
      if cols > 0 then intRange ((left : Int) + cols) right
      else (intRange left ((right : Int) + cols)).reverse
    x_iter.foldl (scroll_copy_cell rows cols y) e
  else e

/-- `Editor::scroll_region`. -/
def scroll_region (e : Editor) (top bot left right : Nat) (rows cols : Int) : Editor :=
  let y_iter :=
    if rows > 0 then intRange ((top : Int) + rows) bot
    else (intRange top ((bot : Int) + rows)).reverse
  y_iter.foldl (scroll_row left right rows cols) e

/-- `font_description.split(":")`, via the underlying character list
(Lean's own `String.splitOn` is not kernel-reducible). -/
def splitParts (s : String) (sep : Char) : List String :=
  (s.data.splitOn sep).map String.mk

/-- `part.starts_with("h")` for a single-character pattern. -/
def startsWithChar (s : String) (c : Char) : Bool :=
  match s.data with
  | [] => false
  | a :: _ => a == c

/-- `&part[1..]` where the first character is the 1-byte `h`: drop one
character. -/
def dropOne (s : String) : String :=
  String.mk (s.data.drop 1)

/-- `Editor::set_option` (the source name is a Lean keyword); `pf`
abstracts `str::parse::<f32>(..).ok()`, which is external library code.
`part.len() > 1` counts bytes in the source; under the conjunction with
`starts_with("h")` (a 1-byte character) it agrees with the character
count used here.  `parts[0]` always exists since a split is never
empty, so `headD` agrees with the source. -/
def setOption (pf : String → Option ℚ) (e : Editor) (gui_option : GuiOption) : Editor :=
  match gui_option with
  | GuiOption.GuiFont font_description =>
    let parts := splitParts font_description ':'
    let e1 : Editor := { e with font_name := some (parts.headD "") }
    (parts.drop 1).foldl
      (fun acc part =>
        if startsWithChar part 'h' ∧ part.length > 1 then
          { acc with font_size := pf (dropOne part) }
        else acc)
      e1
  | GuiOption.Other => e

/-- `Editor::handle_redraw_event`; `none` is a panic inside the event
handler (only reachable through `draw_grid_line`).  `Flush` only pokes
the external redraw scheduler. -/
def handle_redraw_event (pf : String → Option ℚ) (e : Editor) (event : RedrawEvent) :
    Option Editor :=
  match event with
  | RedrawEvent.SetTitle title => some { e with title := title }
  | RedrawEvent.ModeInfoSet cursor_modes =>
    some { e with cursor := { e.cursor with mode_list := cursor_modes } }
  | RedrawEvent.OptionSet gui_option => some (setOption pf e gui_option)
  | RedrawEvent.ModeChange mode_index =>
    some { e with cursor := e.cursor.change_mode mode_index e.defined_styles }
  | RedrawEvent.BusyStart => some { e with cursor := { e.cursor with enabled := false } }
  | RedrawEvent.BusyStop => some { e with cursor := { e.cursor with enabled := true } }
  | RedrawEvent.Flush => some e
  | RedrawEvent.Resize width height => some (e.resize (width, height))
  | RedrawEvent.DefaultColorsSet colors => some { e with default_style := Style.new colors }
  | RedrawEvent.HighlightAttributesDefine id style =>
    some { e with defined_styles := fun k => if k = id then some style else e.defined_styles k }
  | RedrawEvent.GridLine row column_start cells => draw_grid_line e row column_start cells
  | RedrawEvent.Clear => some e.clear
  | RedrawEvent.CursorGoto row column =>
    some { e with cursor := { e.cursor with position := (row, column) } }
  | RedrawEvent.Scroll top bottom left right rows columns =>
    some (scroll_region e top bottom left right rows columns)
  | RedrawEvent.Unknown => some e

/-! ### Concrete editor states used as inputs of witnesses and counterexamples -/

/-- A 2x1 editor, fresh after a clear except that one cell holds "a"
with no style: the row is a `None` cell followed by a styled-None text
cell. -/
def editorTwoOne : Editor :=
  { grid := [none, some ("a", none)], dirty := [true, true], should_clear := true,
    title := "Neovide", size := (2, 1), font_name := none, font_size := none,
    cursor := Cursor.new, default_style := Style.new (Colors.new none none none),
    defined_styles := fun _ => none, previous_style := none }

/-- A 2x2 editor with an empty grid and a fully clean dirty array (the
state reached right after a `build_draw_commands` pass on a fresh 2x2
editor). -/
def editorTwoTwo : Editor :=
  { grid := List.replicate 4 none, dirty := List.replicate 4 false, should_clear := false,
    title := "Neovide", size := (2, 2), font_name := none, font_size := none,
    cursor := Cursor.new, default_style := Style.new (Colors.new none none none),
    defined_styles := fun _ => none, previous_style := none }

/-- An arbitrary concrete style value. -/
def styleSeven : Style := Style.new (Colors.new (some 7) none none)

/-- `editorTwoTwo` with a carried-forward previous style. -/
def editorPrev : Editor := { editorTwoTwo with previous_style := some styleSeven }

/-- `editorTwoTwo` with an already-set font size. -/
def editorFont : Editor := { editorTwoTwo with font_size := some 14 }

/-- A fresh 10x10 editor. -/
def editorTen : Editor := Editor.new (10, 10)

/-- The Bool form of the guard on font tokens:
`part.starts_with("h") && part.len() > 1`. -/
def hTokenFilter (p : String) : Bool := startsWithChar p 'h' && decide (p.length > 1)

/-- The editor produced by writing the run "x" with the absent highlight
id 5 at the origin of `editorPrev`. -/
def editorPrevAfter : Editor :=
  ((draw_grid_line_cell editorPrev 0 0 ⟨["x"], some 5, none⟩).getD (editorPrev, 0)).1


def GoodClosed (full : List GridCell) (r : Nat) (c : DrawCommand) : Prop :=
  c.grid_position.2 = r ∧
  c.grid_position.1 + c.cell_width ≤ full.length ∧
  1 ≤ c.cell_width ∧
  ∀ k, k + 1 < c.cell_width → ∀ s, full.get? (c.grid_position.1 + k) ≠ some (some ("", s))

def GoodOpen (full : List GridCell) (r i : Nat) (c : DrawCommand) : Prop :=
  c.grid_position.2 = r ∧
  c.grid_position.1 + c.cell_width = i ∧
  1 ≤ c.cell_width ∧
  ∀ k, k < c.cell_width → ∀ s, full.get? (c.grid_position.1 + k) ≠ some (some ("", s))

def CoversCol (c : DrawCommand) (col : Nat) : Prop :=
  c.grid_position.1 ≤ col ∧ col < c.grid_position.1 + c.cell_width


/-! ### Basic lemmas about `cell_index`, `set_dirty_cell` and `write_grapheme` -/

theorem cell_index_oob (e : Editor) (x y : Nat) (h : x ≥ e.size.1 ∨ y ≥ e.size.2) :
    e.cell_index x y = none := by
  simp [Editor.cell_index, h]

theorem cell_index_in (e : Editor) (x y : Nat) (hx : x < e.size.1) (hy : y < e.size.2) :
    e.cell_index x y = some (x + y * e.size.1) := by
  simp only [Editor.cell_index, ge_iff_le]
  rw [if_neg]
  push_neg
  exact ⟨hx, hy⟩

theorem cell_index_some (e : Editor) (x y j : Nat) (h : e.cell_index x y = some j) :
    x < e.size.1 ∧ y < e.size.2 ∧ j = x + y * e.size.1 := by
  simp only [Editor.cell_index, ge_iff_le] at h
  split at h
  · exact Option.noConfusion h
  · next hc =>
    push_neg at hc
    exact ⟨hc.1, hc.2, (Option.some.injEq _ _).mp h.symm⟩

theorem flat_index_inj (w x1 y1 x2 y2 : Nat) (h1 : x1 < w) (h2 : x2 < w)
    (h : x1 + y1 * w = x2 + y2 * w) : x1 = x2 ∧ y1 = y2 := by
  have hx : x1 = x2 := by
    have e1 : (x1 + y1 * w) % w = x1 := by
      rw [Nat.add_mul_mod_self_right, Nat.mod_eq_of_lt h1]
    have e2 : (x2 + y2 * w) % w = x2 := by
      rw [Nat.add_mul_mod_self_right, Nat.mod_eq_of_lt h2]
    rw [← e1, ← e2, h]
  refine ⟨hx, ?_⟩
  subst hx
  have hw : 0 < w := Nat.pos_of_ne_zero (by rintro rfl; exact absurd h1 (by simp))
  have := Nat.add_left_cancel h
  exact Nat.eq_of_mul_eq_mul_right hw this

theorem set_dirty_cell_grid (e : Editor) (x y : Nat) :
    (e.set_dirty_cell x y).grid = e.grid := by
  unfold Editor.set_dirty_cell
  split <;> rfl

theorem set_dirty_cell_size (e : Editor) (x y : Nat) :
    (e.set_dirty_cell x y).size = e.size := by
  unfold Editor.set_dirty_cell
  split <;> rfl

theorem set_dirty_cell_dirty_length (e : Editor) (x y : Nat) :
    (e.set_dirty_cell x y).dirty.length = e.dirty.length := by
  unfold Editor.set_dirty_cell
  split
  · simp
  · rfl

theorem set_dirty_cell_previous (e : Editor) (x y : Nat) :
    (e.set_dirty_cell x y).previous_style = e.previous_style := by
  unfold Editor.set_dirty_cell
  split <;> rfl

theorem write_grapheme_size (row col : Nat) (style : Option Style) (e : Editor)
    (ic : Nat × String) : (write_grapheme row col style e ic).size = e.size := by
  unfold write_grapheme
  split
  · rw [set_dirty_cell_size]
  · rfl

theorem write_grapheme_grid_length (row col : Nat) (style : Option Style) (e : Editor)
    (ic : Nat × String) : (write_grapheme row col style e ic).grid.length = e.grid.length := by
  unfold write_grapheme
  split
  · simp [set_dirty_cell_grid]
  · rfl

theorem write_grapheme_dirty_length (row col : Nat) (style : Option Style) (e : Editor)
    (ic : Nat × String) : (write_grapheme row col style e ic).dirty.length = e.dirty.length := by
  unfold write_grapheme
  split
  · rw [set_dirty_cell_dirty_length]
  · rfl

/-! ### Characterization of the grapheme-writing loop -/

theorem cell_index_congr (e1 e2 : Editor) (hsz : e1.size = e2.size) (x y : Nat) :
    e1.cell_index x y = e2.cell_index x y := by
  simp [Editor.cell_index, hsz]

theorem write_grapheme_grid (row col : Nat) (style : Option Style) (e : Editor)
    (ic : Nat × String) :
    (write_grapheme row col style e ic).grid =
      match e.cell_index (ic.1 + col) row with
      | some ci => e.grid.set ci (some (ic.2, style))
      | none => e.grid := by
  unfold write_grapheme
  split
  · rw [set_dirty_cell_grid]
  · rfl

theorem foldl_wg_char (row col : Nat) (style : Option Style) (text : List String) :
    ∀ (k : Nat) (e : Editor),
      (((List.enumFrom k text).foldl (write_grapheme row col style) e).size = e.size) ∧
      (((List.enumFrom k text).foldl (write_grapheme row col style) e).grid.length
        = e.grid.length) ∧
      (((List.enumFrom k text).foldl (write_grapheme row col style) e).dirty.length
        = e.dirty.length) ∧
      (∀ j : Nat, (∀ i, k ≤ i → i < k + text.length → e.cell_index (i + col) row ≠ some j) →
        ((List.enumFrom k text).foldl (write_grapheme row col style) e).grid[j]?
          = e.grid[j]?) ∧
      (e.grid.length = e.size.1 * e.size.2 →
        ∀ i ch, text.get? i = some ch → ∀ ci, e.cell_index ((k + i) + col) row = some ci →
        ((List.enumFrom k text).foldl (write_grapheme row col style) e).grid[ci]?
          = some (some (ch, style))) := by
  induction text with
  | nil =>
    intro k e
    refine ⟨rfl, rfl, rfl, fun j _ => rfl, fun _ i ch hch => ?_⟩
    simp at hch
  | cons ch0 cs ih =>
    intro k e
    rw [List.enumFrom_cons, List.foldl_cons]
    set e0 := write_grapheme row col style e (k, ch0) with he0
    have hsz0 : e0.size = e.size := write_grapheme_size _ _ _ _ _
    have hgl0 : e0.grid.length = e.grid.length := write_grapheme_grid_length _ _ _ _ _
    have hdl0 : e0.dirty.length = e.dirty.length := write_grapheme_dirty_length _ _ _ _ _
    have hci0 : ∀ x y, e0.cell_index x y = e.cell_index x y :=
      fun x y => cell_index_congr _ _ hsz0 x y
    obtain ⟨ihsz, ihgl, ihdl, ihframe, ihwrite⟩ := ih (k + 1) e0
    refine ⟨ihsz.trans hsz0, ihgl.trans hgl0, ihdl.trans hdl0, ?_, ?_⟩
    · intro j hj
      have hstep : e0.grid[j]? = e.grid[j]? := by
        rw [he0, write_grapheme_grid]
        cases hc : e.cell_index (k + col) row with
        | none => rfl
        | some ci =>
          have : ci ≠ j := by
            intro hcj
            exact hj k le_rfl (by simp only [List.length_cons]; omega) (by rw [hc, hcj])
          exact List.getElem?_set_ne this
      rw [← hstep]
      refine ihframe j (fun i hik hilt => ?_)
      rw [hci0]
      exact hj i (by omega) (by simp only [List.length_cons]; omega)
    · intro hlen i ch hch ci hcix
      cases i with
      | zero =>
        simp only [List.get?_eq_getElem?, List.getElem?_cons_zero, Option.some.injEq] at hch
        subst hch
        have hcix0 : e.cell_index (k + col) row = some ci := by
          simpa using hcix
        obtain ⟨hx, hy, hj⟩ := cell_index_some e _ _ _ hcix0
        have hstep : e0.grid[ci]? = some (some (ch0, style)) := by
          rw [he0, write_grapheme_grid]
          simp only [hcix0]
          refine List.getElem?_set_eq ?_
          rw [hlen, hj]
          calc (k + col) + row * e.size.1 < e.size.1 + row * e.size.1 := by omega
            _ ≤ e.size.1 + (e.size.2 - 1) * e.size.1 := by
                have : row ≤ e.size.2 - 1 := by omega
                exact Nat.add_le_add_left (Nat.mul_le_mul_right _ this) _
            _ = e.size.2 * e.size.1 := by
                cases hsz2 : e.size.2 with
                | zero => omega
                | succ m => simp [Nat.succ_mul, hsz2]; ring
            _ = e.size.1 * e.size.2 := Nat.mul_comm _ _
        rw [← hstep]
        refine ihframe ci (fun i hik hilt => ?_)
        rw [hci0]
        intro hcontr
        obtain ⟨hx2, hy2, hj2⟩ := cell_index_some e _ _ _ hcontr
        rw [hj] at hj2
        obtain ⟨hxeq, -⟩ := flat_index_inj e.size.1 _ _ _ _ hx2 hx hj2.symm
        omega
      | succ i2 =>
        have hch2 : cs.get? i2 = some ch := by simpa using hch
        have hcix2 : e0.cell_index (((k + 1) + i2) + col) row = some ci := by
          rw [hci0]
          simpa [Nat.add_assoc, Nat.add_comm, Nat.add_left_comm] using hcix
        exact ihwrite (by rw [hgl0, hsz0]; exact hlen) i2 ch hch2 ci hcix2

theorem foldl_fixed_of_step {α : Type} (f : Editor → α → Editor) (e : Editor)
    (l : List α) (h : ∀ p ∈ l, f e p = e) : l.foldl f e = e := by
  induction l with
  | nil => rfl
  | cons p ps ih =>
    rw [List.foldl_cons, h p (List.mem_cons_self p ps)]
    exact ih (fun q hq => h q (List.mem_cons_of_mem p hq))

theorem dglc_nonempty_eq (e : Editor) (row col : Nat) (cell : GridLineCell)
    (hne : (expandText cell).isEmpty = false) :
    draw_grid_line_cell e row col cell =
      some
        ({ (expandText cell).enum.foldl
             (write_grapheme row col
               (resolve_style e.defined_styles e.previous_style cell.highlight_id)) e with
           previous_style := resolve_style e.defined_styles e.previous_style cell.highlight_id },
         col + (expandText cell).length) := by
  simp [draw_grid_line_cell, hne]

theorem draw_grid_line_cell_previous (e : Editor) (row col : Nat) (cell : GridLineCell)
    (e2 : Editor) (col2 : Nat) (h : draw_grid_line_cell e row col cell = some (e2, col2)) :
    e2.previous_style = resolve_style e.defined_styles e.previous_style cell.highlight_id := by
  simp only [draw_grid_line_cell] at h
  by_cases ht : (expandText cell).isEmpty = true
  · rw [if_pos ht] at h
    cases hci : e.cell_index col row with
    | none => rw [hci] at h; exact Option.noConfusion h
    | some ci =>
      rw [hci] at h
      simp only [Option.some.injEq, Prod.mk.injEq] at h
      rw [← h.1]
  · rw [if_neg ht] at h
    simp only [Option.some.injEq, Prod.mk.injEq] at h
    rw [← h.1]

/-! ### Claim C1 -/

/-- Claim C1, counterexample.  The claim states that a cell write
targeting an out-of-bounds coordinate, "empty-text or not", leaves the
buffer unchanged and never panics.  This is false for an empty-text run
cell: `draw_grid_line_cell` on `editorTwoTwo` (width 2) at column 2
hits the `expect("Should not paint outside of grid")` and panics
(modelled as `none`). -/
theorem C1_counterexample :
    draw_grid_line_cell editorTwoTwo 0 2 ⟨[], none, none⟩ = none := by
  rfl

/-- Claim C1, amended: `cell_index` returns `none` for every coordinate
with `x ≥ width` or `y ≥ height`; a run cell with non-empty
(repeat-expanded) text never panics, its out-of-bounds columns are
skipped without mutating the buffer while every in-bounds cluster is
still written, the column advances by the full cluster count, and a
fully out-of-bounds row leaves grid and dirty arrays unchanged.  The
empty-text out-of-bounds case is excluded: it panics
(`C1_counterexample`). -/
theorem C1_theorem :
    (∀ (e : Editor) (x y : Nat), x ≥ e.size.1 ∨ y ≥ e.size.2 → e.cell_index x y = none) ∧
    (∀ (e : Editor) (row col : Nat) (cell : GridLineCell),
      (expandText cell).isEmpty = false →
      e.grid.length = e.size.1 * e.size.2 →
      ∃ e2,
        draw_grid_line_cell e row col cell = some (e2, col + (expandText cell).length) ∧
        (∀ j : Nat,
          (∀ i, i < (expandText cell).length → e.cell_index (i + col) row ≠ some j) →
          e2.grid[j]? = e.grid[j]?) ∧
        (∀ i ch, (expandText cell).get? i = some ch →
          ∀ ci, e.cell_index (i + col) row = some ci →
          e2.grid[ci]? =
            some (some (ch, resolve_style e.defined_styles e.previous_style cell.highlight_id))) ∧
        (row ≥ e.size.2 → e2.grid = e.grid ∧ e2.dirty = e.dirty)) := by
  constructor
  · exact fun e x y h => cell_index_oob e x y h
  · intro e row col cell hne hlen
    refine ⟨_, dglc_nonempty_eq e row col cell hne, ?_, ?_, ?_⟩
    · intro j hj
      show ((expandText cell).enum.foldl _ e).grid[j]? = e.grid[j]?
      obtain ⟨-, -, -, hframe, -⟩ :=
        foldl_wg_char row col
          (resolve_style e.defined_styles e.previous_style cell.highlight_id)
          (expandText cell) 0 e
      exact hframe j (fun i _ hilt => hj i (by omega))
    · intro i ch hch ci hci
      show ((expandText cell).enum.foldl _ e).grid[ci]? = _
      obtain ⟨-, -, -, -, hwrite⟩ :=
        foldl_wg_char row col
          (resolve_style e.defined_styles e.previous_style cell.highlight_id)
          (expandText cell) 0 e
      exact hwrite hlen i ch hch ci (by simpa using hci)
    · intro hrow
      have hfix : (expandText cell).enum.foldl
          (write_grapheme row col
            (resolve_style e.defined_styles e.previous_style cell.highlight_id)) e = e := by
        refine foldl_fixed_of_step _ e _ (fun p _ => ?_)
        unfold write_grapheme
        rw [cell_index_oob e _ row (Or.inr hrow)]
      constructor
      · show ((expandText cell).enum.foldl _ e).grid = e.grid
        rw [hfix]
      · show ((expandText cell).enum.foldl _ e).dirty = e.dirty
        rw [hfix]

/-- Claim C1, witness: the amended theorem evaluated at `editorTwoTwo`,
coordinate (2,0) for the bound check and the two-cluster run "ab"
written from column 1 (its second cluster falls out of bounds and is
skipped without a panic). -/
theorem C1_witness :
    editorTwoTwo.cell_index 2 0 = none ∧
    (draw_grid_line_cell editorTwoTwo 0 1 ⟨["a", "b"], none, none⟩).isSome = true := by
  refine ⟨C1_theorem.1 editorTwoTwo 2 0 (Or.inl (by decide)), ?_⟩
  obtain ⟨e2, heq, -⟩ :=
    C1_theorem.2 editorTwoTwo 0 1 ⟨["a", "b"], none, none⟩ (by decide) (by decide)
  rw [heq]
  rfl

/-! ### Claim C2 -/

/-- Claim C2, counterexample.  The claim states that a positive
highlight id absent from the style table reuses `previous_style`.  In
the code `Some(style_id)` resolves to the bare table lookup: on
`editorPrev` (whose `previous_style` is `some styleSeven` and whose
table is empty) the run "x" with highlight id 5 is written with style
`none`, not `some styleSeven`. -/
theorem C2_counterexample :
    (draw_grid_line_cell editorPrev 0 0 ⟨["x"], some 5, none⟩).map
      (fun p => (p.1.grid.getD 0 none, p.1.previous_style)) = some (some ("x", none), none) ∧
    editorPrev.previous_style = some styleSeven := by
  constructor
  · rfl
  · rfl

/-- Claim C2, amended: highlight id 0 resolves to no style; a positive
id resolves to the bare table lookup, so an id absent from the table
gives no style (`none`) rather than `previous_style`; only a run with
no id at all reuses `previous_style`; and the run's resolved style
always becomes `previous_style` for the next run. -/
theorem C2_theorem :
    (∀ (d : Nat → Option Style) (p : Option Style), resolve_style d p (some 0) = none) ∧
    (∀ (d : Nat → Option Style) (p : Option Style) (i : Nat), i ≠ 0 →
      resolve_style d p (some i) = d i) ∧
    (∀ (d : Nat → Option Style) (p : Option Style), resolve_style d p none = p) ∧
    (∀ (e : Editor) (row col : Nat) (cell : GridLineCell) (e2 : Editor) (col2 : Nat),
      draw_grid_line_cell e row col cell = some (e2, col2) →
      e2.previous_style = resolve_style e.defined_styles e.previous_style cell.highlight_id) := by
  refine ⟨fun d p => rfl, fun d p i hi => ?_, fun d p => rfl,
    fun e row col cell e2 col2 h => draw_grid_line_cell_previous e row col cell e2 col2 h⟩
  cases i with
  | zero => exact absurd rfl hi
  | succ n => rfl

/-- Claim C2, witness: the amended theorem evaluated at the absent id 5
over an empty table with `previous_style = some styleSeven`, and at the
concrete run of `editorPrevAfter`. -/
theorem C2_witness :
    resolve_style (fun _ => none) (some styleSeven) (some 5) =
      (fun _ : Nat => (none : Option Style)) 5 ∧
    editorPrevAfter.previous_style =
      resolve_style editorPrev.defined_styles editorPrev.previous_style (some 5) := by
  constructor
  · exact C2_theorem.2.1 (fun _ => none) (some styleSeven) 5 (by decide)
  · exact C2_theorem.2.2.2 editorPrev 0 0 ⟨["x"], some 5, none⟩ editorPrevAfter 1 (by rfl)

/-! ### Claim C4 (code bug) -/

/-- Claim C4: the code is wrong.  `draw_grid_line` guards
`row < self.grid.len()` — the total cell count `width*height` — instead
of `row < height`.  On `editorTwoTwo` (2x2, so `grid.len() = 4`,
`height = 2`) a `GridLine` for row 2 passes the guard, no diagnostic is
emitted, and the empty-text run cell then panics at the
`expect("Should not paint outside of grid")` (modelled as `none`),
contradicting both the claim and the guard's own purpose. -/
theorem C4_theorem :
    draw_grid_line editorTwoTwo 2 0 [⟨[], none, none⟩] = none := by
  rfl

/-! ### Claim C5 (code bug) -/

/-- Claim C5: the code is wrong.  Inside the grapheme loop the source
writes cell `i + column_pos` but marks `column_pos` dirty, so only the
run's starting column is ever marked.  Writing the two-cluster run "ab"
at the origin of `editorTwoTwo` (whose dirty array is all false) stores
"b" in cell 1 yet leaves its dirty bit false; the claim says every
written cell is marked dirty. -/
theorem C5_theorem :
    (draw_grid_line editorTwoTwo 0 0 [⟨["a", "b"], none, none⟩]).map
      (fun e => (e.grid.getD 1 none, e.dirty.getD 1 true)) =
      some (some ("b", none), false) := by
  rfl

/-! ### Claim C6 -/

/-- Claim C6, counterexample.  The claim states an unparsable font-size
suffix leaves the font size unchanged.  The source assigns
`self.font_size = part[1..].parse::<f32>().ok()` unconditionally for an
`h` token, so a failed parse (modelled by the parse function returning
`none` on "xx") clears `font_size` from `some 14` to `none` instead of
keeping `some 14`. -/
theorem C6_counterexample :
    (setOption (fun _ => none) editorFont (GuiOption.GuiFont "Fira:hxx")).font_size = none ∧
    editorFont.font_size = some 14 := by
  constructor
  · rfl
  · rfl

theorem setOption_fold (pf : String → Option ℚ) (ps : List String) (e0 : Editor) :
    ((ps.foldl
        (fun acc part =>
          if startsWithChar part 'h' ∧ part.length > 1 then
            { acc with font_size := pf (dropOne part) }
          else acc)
        e0).font_size =
      (match (ps.filter hTokenFilter).getLast? with
        | some p => pf (dropOne p)
        | none => e0.font_size)) ∧
    ((ps.foldl
        (fun acc part =>
          if startsWithChar part 'h' ∧ part.length > 1 then
            { acc with font_size := pf (dropOne part) }
          else acc)
        e0).font_name = e0.font_name) := by
  induction ps generalizing e0 with
  | nil => exact ⟨rfl, rfl⟩
  | cons p ps ih =>
    simp only [List.foldl_cons, List.filter_cons]
    by_cases hp : startsWithChar p 'h' ∧ p.length > 1
    · have hb : hTokenFilter p = true := by
        simp [hTokenFilter, hp.1, hp.2]
      rw [if_pos hp, hb]
      rcases ih { e0 with font_size := pf (dropOne p) } with ⟨h1, h2⟩
      refine ⟨?_, h2⟩
      rw [h1]
      cases hfl : ps.filter hTokenFilter with
      | nil => simp
      | cons q qs =>
        obtain ⟨a, ha⟩ := Option.isSome_iff_exists.mp
          (List.getLast?_isSome.mpr (List.cons_ne_nil q qs))
        rw [ha]
        simp [List.getLast?_cons_cons, ha]
    · have hb : hTokenFilter p = false := by
        simp only [hTokenFilter, Bool.and_eq_false_iff, decide_eq_false_iff_not]
        by_cases h1 : startsWithChar p 'h'
        · exact Or.inr (fun h2 => hp ⟨h1, h2⟩)
        · exact Or.inl (by simpa using h1)
      rw [if_neg hp, hb]
      exact ih e0

/-- Claim C6, amended: the font string is split on `:`; the first token
becomes the family name; among the later tokens those starting with `h`
and longer than one character have their remainder parsed, the last
such token deciding the font size — which is set to the raw parse
result, so a failed parse clears the font size to `none` rather than
leaving it unchanged; tokens without such an `h` prefix are ignored
(when no `h` token exists the size is unchanged). -/
theorem C6_theorem (pf : String → Option ℚ) (e : Editor) (s : String) :
    (setOption pf e (GuiOption.GuiFont s)).font_name =
      some ((splitParts s ':').headD "") ∧
    (setOption pf e (GuiOption.GuiFont s)).font_size =
      (match (((splitParts s ':').drop 1).filter hTokenFilter).getLast? with
        | some p => pf (dropOne p)
        | none => e.font_size) := by
  have h := setOption_fold pf ((splitParts s ':').drop 1)
    { e with font_name := some ((splitParts s ':').headD "") }
  constructor
  · simpa [setOption] using h.2
  · have h1 := h.1
    simp only [setOption]
    rw [h1]

/-! ### Preservation lemmas and claims C9, C10 -/

theorem foldl_pres_field {α β : Type} (g : Editor → β) (f : Editor → α → Editor)
    (hf : ∀ e a, g (f e a) = g e) : ∀ (l : List α) (e : Editor), g (l.foldl f e) = g e := by
  intro l
  induction l with
  | nil => intro e; rfl
  | cons a as ih => intro e; rw [List.foldl_cons, ih, hf]

theorem set_dirty_cell_should_clear (e : Editor) (x y : Nat) :
    (e.set_dirty_cell x y).should_clear = e.should_clear := by
  unfold Editor.set_dirty_cell
  split <;> rfl

theorem scroll_copy_cell_size (rows cols y : Int) (e : Editor) (x : Int) :
    (scroll_copy_cell rows cols y e x).size = e.size := by
  simp only [scroll_copy_cell]
  split
  · rw [set_dirty_cell_size]
  · rfl

theorem scroll_copy_cell_grid_length (rows cols y : Int) (e : Editor) (x : Int) :
    (scroll_copy_cell rows cols y e x).grid.length = e.grid.length := by
  simp only [scroll_copy_cell]
  split
  · rw [set_dirty_cell_grid]; simp
  · rfl

theorem scroll_copy_cell_dirty_length (rows cols y : Int) (e : Editor) (x : Int) :
    (scroll_copy_cell rows cols y e x).dirty.length = e.dirty.length := by
  simp only [scroll_copy_cell]
  split
  · rw [set_dirty_cell_dirty_length]
  · rfl

theorem scroll_copy_cell_should_clear (rows cols y : Int) (e : Editor) (x : Int) :
    (scroll_copy_cell rows cols y e x).should_clear = e.should_clear := by
  simp only [scroll_copy_cell]
  split
  · rw [set_dirty_cell_should_clear]
  · rfl

theorem scroll_row_pres {β : Type} (g : Editor → β)
    (left right : Nat) (rows cols : Int) (e : Editor) (y : Int)
    (hf : ∀ e x, g (scroll_copy_cell rows cols y e x) = g e) :
    g (scroll_row left right rows cols e y) = g e := by
  simp only [scroll_row]
  split
  · exact foldl_pres_field g _ hf _ e
  · rfl

theorem scroll_region_pres {β : Type} (g : Editor → β)
    (e : Editor) (top bot left right : Nat) (rows cols : Int)
    (hf : ∀ e y x, g (scroll_copy_cell rows cols y e x) = g e) :
    g (scroll_region e top bot left right rows cols) = g e := by
  simp only [scroll_region]
  refine foldl_pres_field g _ (fun e y => ?_) _ e
  exact scroll_row_pres g left right rows cols e y (fun e x => hf e y x)

theorem write_grapheme_should_clear (row col : Nat) (style : Option Style) (e : Editor)
    (ic : Nat × String) : (write_grapheme row col style e ic).should_clear = e.should_clear := by
  simp only [write_grapheme]
  split
  · rw [set_dirty_cell_should_clear]
  · rfl

theorem dglc_pres (e : Editor) (row col : Nat) (cell : GridLineCell) (e2 : Editor) (col2 : Nat)
    (h : draw_grid_line_cell e row col cell = some (e2, col2)) :
    e2.size = e.size ∧ e2.grid.length = e.grid.length ∧ e2.dirty.length = e.dirty.length ∧
      e2.should_clear = e.should_clear := by
  simp only [draw_grid_line_cell] at h
  by_cases ht : (expandText cell).isEmpty = true
  · rw [if_pos ht] at h
    cases hci : e.cell_index col row with
    | none => rw [hci] at h; exact Option.noConfusion h
    | some ci =>
      rw [hci] at h
      simp only [Option.some.injEq, Prod.mk.injEq] at h
      rw [← h.1]
      refine ⟨?_, ?_, ?_, ?_⟩
      · show (Editor.set_dirty_cell _ col row).size = e.size
        rw [set_dirty_cell_size]
      · show (Editor.set_dirty_cell _ col row).grid.length = e.grid.length
        rw [set_dirty_cell_grid]
        simp
      · show (Editor.set_dirty_cell _ col row).dirty.length = e.dirty.length
        rw [set_dirty_cell_dirty_length]
      · show (Editor.set_dirty_cell _ col row).should_clear = e.should_clear
        rw [set_dirty_cell_should_clear]
  · rw [if_neg ht] at h
    simp only [Option.some.injEq, Prod.mk.injEq] at h
    rw [← h.1]
    obtain ⟨hsz, hgl, hdl, -, -⟩ :=
      foldl_wg_char row col
        (resolve_style e.defined_styles e.previous_style cell.highlight_id)
        (expandText cell) 0 e
    refine ⟨hsz, hgl, hdl, ?_⟩
    exact foldl_pres_field (fun e => e.should_clear) _
      (fun e ic => write_grapheme_should_clear row col _ e ic) _ e

theorem dgl_go_pres (row : Nat) (cells : List GridLineCell) :
    ∀ (e : Editor) (col : Nat) (e2 : Editor),
      draw_grid_line_go e row col cells = some e2 →
      e2.size = e.size ∧ e2.grid.length = e.grid.length ∧ e2.dirty.length = e.dirty.length ∧
        e2.should_clear = e.should_clear := by
  induction cells with
  | nil =>
    intro e col e2 h
    simp only [draw_grid_line_go, Option.some.injEq] at h
    rw [← h]
    exact ⟨rfl, rfl, rfl, rfl⟩
  | cons c cs ih =>
    intro e col e2 h
    simp only [draw_grid_line_go] at h
    cases hc : draw_grid_line_cell e row col c with
    | none => rw [hc] at h; exact Option.noConfusion h
    | some p =>
      rw [hc] at h
      obtain ⟨h1, h2, h3, h4⟩ := dglc_pres e row col c p.1 p.2 (by rw [hc])
      obtain ⟨g1, g2, g3, g4⟩ := ih p.1 p.2 e2 h
      exact ⟨g1.trans h1, g2.trans h2, g3.trans h3, g4.trans h4⟩

theorem dgl_pres (e : Editor) (row col : Nat) (cells : List GridLineCell) (e2 : Editor)
    (h : draw_grid_line e row col cells = some e2) :
    e2.size = e.size ∧ e2.grid.length = e.grid.length ∧ e2.dirty.length = e.dirty.length ∧
      e2.should_clear = e.should_clear := by
  simp only [draw_grid_line] at h
  split at h
  · exact dgl_go_pres row cells e col e2 h
  · simp only [Option.some.injEq] at h
    rw [← h]
    exact ⟨rfl, rfl, rfl, rfl⟩

theorem setOption_pres (pf : String → Option ℚ) (e : Editor) (o : GuiOption) :
    (setOption pf e o).grid = e.grid ∧ (setOption pf e o).dirty = e.dirty ∧
      (setOption pf e o).size = e.size ∧ (setOption pf e o).should_clear = e.should_clear := by
  cases o with
  | Other => exact ⟨rfl, rfl, rfl, rfl⟩
  | GuiFont s =>
    simp only [setOption]
    have := foldl_pres_field (fun e => (e.grid, e.dirty, e.size, e.should_clear))
      (fun acc part =>
        if startsWithChar part 'h' ∧ part.length > 1 then
          { acc with font_size := pf (dropOne part) }
        else acc)
      (fun e part => by dsimp only; split <;> rfl)
      ((splitParts s ':').drop 1)
      { e with font_name := some ((splitParts s ':').headD "") }
    simp only [Prod.mk.injEq] at this
    exact ⟨this.1, this.2.1, this.2.2.1, this.2.2.2⟩

theorem getD_replicate_false (n i : Nat) : (List.replicate n false).getD i false = false := by
  unfold List.getD
  rw [List.get?_eq_getElem?, List.getElem?_replicate]
  split <;> rfl

/-- Claim C9: the length invariant `grid.len() == dirty.len() == width*height`
holds after construction, is preserved by every successful
`handle_redraw_event`, and is preserved by `build_draw_commands`. -/
theorem C9_theorem :
    (∀ d : Nat × Nat,
      (Editor.new d).grid.length = (Editor.new d).size.1 * (Editor.new d).size.2 ∧
      (Editor.new d).dirty.length = (Editor.new d).size.1 * (Editor.new d).size.2) ∧
    (∀ (pf : String → Option ℚ) (e : Editor) (ev : RedrawEvent) (e2 : Editor),
      e.grid.length = e.size.1 * e.size.2 →
      e.dirty.length = e.size.1 * e.size.2 →
      handle_redraw_event pf e ev = some e2 →
      e2.grid.length = e2.size.1 * e2.size.2 ∧ e2.dirty.length = e2.size.1 * e2.size.2) ∧
    (∀ e : Editor,
      e.grid.length = e.size.1 * e.size.2 →
      (build_draw_commands e).2.grid.length =
        (build_draw_commands e).2.size.1 * (build_draw_commands e).2.size.2 ∧
      (build_draw_commands e).2.dirty.length =
        (build_draw_commands e).2.size.1 * (build_draw_commands e).2.size.2) := by
  refine ⟨?_, ?_, ?_⟩
  · intro d
    constructor <;> simp [Editor.new, Editor.clear]
  · intro pf e ev e2 hg hd h
    cases ev with
    | SetTitle t =>
      simp only [handle_redraw_event, Option.some.injEq] at h
      subst h; exact ⟨hg, hd⟩
    | ModeInfoSet ms =>
      simp only [handle_redraw_event, Option.some.injEq] at h
      subst h; exact ⟨hg, hd⟩
    | OptionSet o =>
      simp only [handle_redraw_event, Option.some.injEq] at h
      subst h
      obtain ⟨h1, h2, h3, -⟩ := setOption_pres pf e o
      rw [h1, h2, h3]
      exact ⟨hg, hd⟩
    | ModeChange i =>
      simp only [handle_redraw_event, Option.some.injEq] at h
      subst h; exact ⟨hg, hd⟩
    | BusyStart =>
      simp only [handle_redraw_event, Option.some.injEq] at h
      subst h; exact ⟨hg, hd⟩
    | BusyStop =>
      simp only [handle_redraw_event, Option.some.injEq] at h
      subst h; exact ⟨hg, hd⟩
    | Flush =>
      simp only [handle_redraw_event, Option.some.injEq] at h
      subst h; exact ⟨hg, hd⟩
    | Resize w h2 =>
      simp only [handle_redraw_event, Option.some.injEq] at h
      subst h
      constructor <;> simp [Editor.resize, Editor.clear]
    | DefaultColorsSet c =>
      simp only [handle_redraw_event, Option.some.injEq] at h
      subst h; exact ⟨hg, hd⟩
    | HighlightAttributesDefine i st =>
      simp only [handle_redraw_event, Option.some.injEq] at h
      subst h; exact ⟨hg, hd⟩
    | GridLine row colStart cells =>
      simp only [handle_redraw_event] at h
      obtain ⟨h1, h2, h3, -⟩ := dgl_pres e row colStart cells e2 h
      rw [h1, h2, h3]
      exact ⟨hg, hd⟩
    | Clear =>
      simp only [handle_redraw_event, Option.some.injEq] at h
      subst h
      constructor <;> simp [Editor.clear]
    | CursorGoto r c =>
      simp only [handle_redraw_event, Option.some.injEq] at h
      subst h; exact ⟨hg, hd⟩
    | Scroll top bottom left right rows columns =>
      simp only [handle_redraw_event, Option.some.injEq] at h
      subst h
      have hp := scroll_region_pres (fun e => (e.grid.length, e.dirty.length, e.size))
        e top bottom left right rows columns
        (fun e y x => by
          simp only [Prod.mk.injEq]
          exact ⟨scroll_copy_cell_grid_length rows columns y e x,
            scroll_copy_cell_dirty_length rows columns y e x,
            scroll_copy_cell_size rows columns y e x⟩)
      simp only [Prod.mk.injEq] at hp
      rw [hp.1, hp.2.1, hp.2.2]
      exact ⟨hg, hd⟩
    | Unknown =>
      simp only [handle_redraw_event, Option.some.injEq] at h
      subst h; exact ⟨hg, hd⟩
  · intro e hg
    constructor
    · show e.grid.length = e.size.1 * e.size.2
      exact hg
    · show (List.replicate (e.size.1 * e.size.2) false).length = e.size.1 * e.size.2
      simp


/-- Claim C9, witness: the preservation part applied to `editorTwoOne`
and a `Flush` event. -/
theorem C9_witness :
    editorTwoOne.grid.length = editorTwoOne.size.1 * editorTwoOne.size.2 ∧
    editorTwoOne.dirty.length = editorTwoOne.size.1 * editorTwoOne.size.2 :=
  C9_theorem.2.1 (fun _ => none) editorTwoOne RedrawEvent.Flush editorTwoOne
    (by decide) (by decide) rfl

/-- Claim C10: a compilation pass mutates only the dirty array (reset
to all-false) and the `should_clear` flag (reset to false); grid, size,
title, font name and size, cursor, default style, style table and
`previous_style` are returned unchanged. -/
theorem C10_theorem (e : Editor) :
    ((build_draw_commands e).2.grid = e.grid) ∧
    ((build_draw_commands e).2.size = e.size) ∧
    ((build_draw_commands e).2.title = e.title) ∧
    ((build_draw_commands e).2.font_name = e.font_name) ∧
    ((build_draw_commands e).2.font_size = e.font_size) ∧
    ((build_draw_commands e).2.cursor = e.cursor) ∧
    ((build_draw_commands e).2.default_style = e.default_style) ∧
    ((build_draw_commands e).2.defined_styles = e.defined_styles) ∧
    ((build_draw_commands e).2.previous_style = e.previous_style) ∧
    ((build_draw_commands e).2.dirty = List.replicate (e.size.1 * e.size.2) false) ∧
    ((build_draw_commands e).2.should_clear = false) :=
  ⟨rfl, rfl, rfl, rfl, rfl, rfl, rfl, rfl, rfl, rfl, rfl⟩


/-! ### Claims C3 and C8: the run-batching scan -/

/-- Claim C3, counterexample.  The claim states a `None` cell's space
forces the current run to close so that no emitted command contains it
followed by further characters.  On `editorTwoOne` (row: `None` cell,
then "a" with no style) the compiler emits the single command " a" —
the `None` cell's space followed by "a" in one command. -/
theorem C3_counterexample :
    (build_draw_commands editorTwoOne).1.1 =
      [{ text := " a", cell_width := 2, grid_position := (0, 0), style := none, scale := 1 }] := by
  decide

theorem step_cell_empty (r : Nat) (acc : List DrawCommand) (cmd : Option DrawCommand)
    (k : Nat) (ch : String) (st : Option Style) (h : ch.isEmpty = true) :
    row_cell_step r (acc, cmd) (k, some (ch, st)) =
      (add_command acc (add_character cmd " " r k st), none) := by
  simp [row_cell_step, h]

theorem step_cell_mismatch (r : Nat) (acc : List DrawCommand) (cmd : Option DrawCommand)
    (k : Nat) (ch : String) (st : Option Style) (h : ch.isEmpty = false)
    (hm : command_matches cmd st = false) :
    row_cell_step r (acc, cmd) (k, some (ch, st)) =
      (add_command acc cmd, add_character none ch r k st) := by
  simp [row_cell_step, h, hm]

theorem step_cell_match (r : Nat) (acc : List DrawCommand) (cmd : Option DrawCommand)
    (k : Nat) (ch : String) (st : Option Style) (h : ch.isEmpty = false)
    (hm : command_matches cmd st = true) :
    row_cell_step r (acc, cmd) (k, some (ch, st)) =
      (acc, add_character cmd ch r k st) := by
  simp [row_cell_step, h, hm]

theorem step_none_mismatch (r : Nat) (acc : List DrawCommand) (cmd : Option DrawCommand)
    (k : Nat) (hm : command_matches cmd none = false) :
    row_cell_step r (acc, cmd) (k, none) =
      (add_command acc cmd, add_character none " " r k none) := by
  simp [row_cell_step, hm]

theorem step_none_match (r : Nat) (acc : List DrawCommand) (cmd : Option DrawCommand)
    (k : Nat) (hm : command_matches cmd none = true) :
    row_cell_step r (acc, cmd) (k, none) =
      (acc, add_character cmd " " r k none) := by
  simp [row_cell_step, hm]

theorem add_character_none_eq (ch : String) (r k : Nat) (st : Option Style) :
    add_character none ch r k st = some (DrawCommand.new ch 1 (k, r) st) := rfl

theorem add_character_some_eq (c : DrawCommand) (ch : String) (r k : Nat) (st : Option Style) :
    add_character (some c) ch r k st =
      some { c with text := c.text ++ ch, cell_width := c.cell_width + 1 } := rfl

theorem goodopen_new (full : List GridCell) (r k : Nat) (ch : String) (st : Option Style)
    (hk : k < full.length)
    (hcell : ∀ s, full.get? k ≠ some (some ("", s))) :
    GoodOpen full r (k + 1) (DrawCommand.new ch 1 (k, r) st) := by
  dsimp only [GoodOpen, DrawCommand.new]
  refine ⟨rfl, rfl, le_rfl, fun k2 hk2 s => ?_⟩
  have : k2 = 0 := by omega
  subst this
  simpa using hcell s

theorem goodopen_extend (full : List GridCell) (r k : Nat) (c : DrawCommand)
    (hopen : GoodOpen full r k c)
    (hcell : ∀ s, full.get? k ≠ some (some ("", s)))
    (ch : String) :
    GoodOpen full r (k + 1)
      { c with text := c.text ++ ch, cell_width := c.cell_width + 1 } := by
  obtain ⟨h1, h2, h3, h4⟩ := hopen
  dsimp only [GoodOpen]
  refine ⟨h1, by omega, by omega, fun k2 hk2 s => ?_⟩
  rcases Nat.lt_succ_iff_lt_or_eq.mp hk2 with h | h
  · exact h4 k2 h s
  · subst h
    show full.get? (c.grid_position.1 + c.cell_width) ≠ some (some ("", s))
    rw [h2]
    exact hcell s

theorem goodopen_to_closed (full : List GridCell) (r j : Nat) (c : DrawCommand)
    (hopen : GoodOpen full r j c) (hj : j ≤ full.length) : GoodClosed full r c := by
  obtain ⟨h1, h2, h3, h4⟩ := hopen
  exact ⟨h1, by omega, h3, fun k hk s => h4 k (by omega) s⟩

theorem goodopen_widen (full : List GridCell) (r k : Nat) (c : DrawCommand)
    (hopen : GoodOpen full r k c) (hk : k < full.length) (ch : String) :
    GoodClosed full r { c with text := c.text ++ ch, cell_width := c.cell_width + 1 } := by
  obtain ⟨h1, h2, h3, h4⟩ := hopen
  dsimp only [GoodClosed]
  refine ⟨h1, by omega, by omega, fun k2 hk2 s => ?_⟩
  exact h4 k2 (by omega) s

theorem goodclosed_new (full : List GridCell) (r k : Nat) (ch : String) (st : Option Style)
    (hk : k < full.length) : GoodClosed full r (DrawCommand.new ch 1 (k, r) st) := by
  dsimp only [GoodClosed, DrawCommand.new]
  exact ⟨rfl, by omega, le_rfl, fun k2 hk2 s => by omega⟩

theorem covers_k_of_new_survivor (c2 : DrawCommand) (k r : Nat) (ch : String)
    (st : Option Style)
    (hpos : c2.grid_position = (DrawCommand.new ch 1 (k, r) st).grid_position)
    (hcw : (DrawCommand.new ch 1 (k, r) st).cell_width ≤ c2.cell_width) :
    CoversCol c2 k ∧ c2.grid_position.2 = r := by
  dsimp only [DrawCommand.new] at hpos hcw
  refine ⟨⟨?_, ?_⟩, ?_⟩
  · rw [hpos]
  · rw [hpos]; omega
  · rw [hpos]

theorem covers_k_of_ext_survivor (full : List GridCell) (c c2 : DrawCommand) (r k : Nat)
    (hopen : GoodOpen full r k c)
    (hpos : c2.grid_position = c.grid_position)
    (hcw : c.cell_width + 1 ≤ c2.cell_width) :
    CoversCol c2 k ∧ c2.grid_position.2 = r := by
  obtain ⟨h1, h2, h3, -⟩ := hopen
  refine ⟨⟨?_, ?_⟩, ?_⟩
  · rw [hpos]; omega
  · rw [hpos]; omega
  · rw [hpos]; exact h1

theorem nonempty_cell_not_blank (ch : String) (st : Option Style) (full : List GridCell)
    (k : Nat) (hcell : full.get? k = some (some (ch, st))) (hch : ch.isEmpty = false) :
    ∀ s, full.get? k ≠ some (some ("", s)) := by
  intro s hcontr
  rw [hcell] at hcontr
  simp only [Option.some.injEq] at hcontr
  have : ch = "" := congrArg Prod.fst hcontr
  rw [this] at hch
  exact Bool.noConfusion hch

theorem none_cell_not_blank (full : List GridCell) (k : Nat)
    (hcell : full.get? k = some none) :
    ∀ s, full.get? k ≠ some (some ("", s)) := by
  intro s hcontr
  rw [hcell] at hcontr
  simp at hcontr

theorem build_row_fold_inv (r : Nat) (full : List GridCell) :
    ∀ (suffix : List GridCell) (k : Nat) (acc : List DrawCommand) (cmd : Option DrawCommand),
      (∀ m, suffix.get? m = full.get? (k + m)) →
      k + suffix.length = full.length →
      (∀ c, cmd = some c → GoodOpen full r k c) →
      (∀ c ∈ acc, c ∈ ((List.enumFrom k suffix).foldl (row_cell_step r) (acc, cmd)).1) ∧
      (∀ c ∈ ((List.enumFrom k suffix).foldl (row_cell_step r) (acc, cmd)).1,
        c ∈ acc ∨ GoodClosed full r c) ∧
      (∀ c, ((List.enumFrom k suffix).foldl (row_cell_step r) (acc, cmd)).2 = some c →
        GoodOpen full r full.length c) ∧
      (∀ c, cmd = some c →
        (∃ c2 ∈ ((List.enumFrom k suffix).foldl (row_cell_step r) (acc, cmd)).1,
          c2.grid_position = c.grid_position ∧ c.cell_width ≤ c2.cell_width) ∨
        (∃ c2, ((List.enumFrom k suffix).foldl (row_cell_step r) (acc, cmd)).2 = some c2 ∧
          c2.grid_position = c.grid_position ∧ c.cell_width ≤ c2.cell_width)) ∧
      (∀ col, k ≤ col → col < full.length →
        (∃ c ∈ ((List.enumFrom k suffix).foldl (row_cell_step r) (acc, cmd)).1,
          c.grid_position.2 = r ∧ CoversCol c col) ∨
        (∃ c, ((List.enumFrom k suffix).foldl (row_cell_step r) (acc, cmd)).2 = some c ∧
          CoversCol c col)) := by
  intro suffix
  induction suffix with
  | nil =>
    intro k acc cmd hsuf hk hopen
    refine ⟨fun c hc => hc, fun c hc => Or.inl hc, ?_, ?_, ?_⟩
    · intro c hc
      have hkl : k = full.length := by simpa using hk
      rw [← hkl]
      exact hopen c hc
    · intro c hc
      exact Or.inr ⟨c, hc, rfl, le_rfl⟩
    · intro col hcol1 hcol2
      have hkl : k = full.length := by simpa using hk
      omega
  | cons cell rest ih =>
    intro k acc cmd hsuf hk hopen
    have hcell : full.get? k = some cell := by
      have := hsuf 0
      simpa using this.symm
    have hklt : k < full.length := by
      simp only [List.length_cons] at hk
      omega
    have hsuf2 : ∀ m, rest.get? m = full.get? ((k + 1) + m) := by
      intro m
      have := hsuf (m + 1)
      simp only [List.get?_cons_succ] at this
      rw [this]
      congr 1
      omega
    have hk2 : (k + 1) + rest.length = full.length := by
      simp only [List.length_cons] at hk
      omega
    rw [List.enumFrom_cons, List.foldl_cons]
    -- case analysis on the cell and the branch taken
    rcases hc : cell with - | ⟨ch, st⟩
    · -- cell = none
      rcases hcm : command_matches cmd none with - | -
      · -- mismatch: the open command is closed, a fresh " " command starts
        have hcmd : ∃ c0, cmd = some c0 := by
          cases cmd with
          | none => exact absurd hcm (by simp [command_matches])
          | some c0 => exact ⟨c0, rfl⟩
        obtain ⟨c0, rfl⟩ := hcmd
        rw [step_none_mismatch r acc (some c0) k hcm, add_character_none_eq]
        have hopen1 : ∀ c, some (DrawCommand.new " " 1 (k, r) none) = some c →
            GoodOpen full r (k + 1) c := by
          intro c hc2
          cases hc2
          exact goodopen_new full r k " " none hklt
            (none_cell_not_blank full k (by rw [hcell, hc]))
        obtain ⟨ih0, ih1, ih2, ih3, ih4⟩ :=
          ih (k + 1) (add_command acc (some c0)) (some (DrawCommand.new " " 1 (k, r) none))
            hsuf2 hk2 hopen1
        have hmemc0 : c0 ∈ add_command acc (some c0) := by
          simp [add_command]
        refine ⟨?_, ?_, ih2, ?_, ?_⟩
        · intro c hcacc
          exact ih0 c (by simp [add_command, hcacc])
        · intro c hcres
          rcases ih1 c hcres with hin | hgood
          · rcases (by simpa [add_command] using hin : c ∈ acc ∨ c = c0) with h | h
            · exact Or.inl h
            · subst h
              exact Or.inr (goodopen_to_closed full r k c (hopen c rfl) (le_of_lt hklt))
          · exact Or.inr hgood
        · intro c hc2
          cases hc2
          exact Or.inl ⟨c0, ih0 c0 hmemc0, rfl, le_rfl⟩
        · intro col hcol1 hcol2
          rcases Nat.eq_or_lt_of_le hcol1 with h | h
          · subst h
            rcases ih3 (DrawCommand.new " " 1 (k, r) none) rfl with
              ⟨c2, hc2mem, hc2pos, hc2cw⟩ | ⟨c2, hc2eq, hc2pos, hc2cw⟩
            · obtain ⟨hcov, hrow⟩ := covers_k_of_new_survivor c2 k r " " none hc2pos hc2cw
              exact Or.inl ⟨c2, hc2mem, hrow, hcov⟩
            · obtain ⟨hcov, -⟩ := covers_k_of_new_survivor c2 k r " " none hc2pos hc2cw
              exact Or.inr ⟨c2, hc2eq, hcov⟩
          · exact ih4 col h hcol2
      · -- match: the space is appended to (or starts) the current command
        rw [step_none_match r acc cmd k hcm]
        cases cmd with
        | none =>
          rw [add_character_none_eq]
          have hopen1 : ∀ c, some (DrawCommand.new " " 1 (k, r) none) = some c →
              GoodOpen full r (k + 1) c := by
            intro c hc2
            cases hc2
            exact goodopen_new full r k " " none hklt
              (none_cell_not_blank full k (by rw [hcell, hc]))
          obtain ⟨ih0, ih1, ih2, ih3, ih4⟩ :=
            ih (k + 1) acc (some (DrawCommand.new " " 1 (k, r) none)) hsuf2 hk2 hopen1
          refine ⟨ih0, ih1, ih2, ?_, ?_⟩
          · intro c hc2
            exact Option.noConfusion hc2
          · intro col hcol1 hcol2
            rcases Nat.eq_or_lt_of_le hcol1 with h | h
            · subst h
              rcases ih3 (DrawCommand.new " " 1 (k, r) none) rfl with
                ⟨c2, hc2mem, hc2pos, hc2cw⟩ | ⟨c2, hc2eq, hc2pos, hc2cw⟩
              · obtain ⟨hcov, hrow⟩ := covers_k_of_new_survivor c2 k r " " none hc2pos hc2cw
                exact Or.inl ⟨c2, hc2mem, hrow, hcov⟩
              · obtain ⟨hcov, -⟩ := covers_k_of_new_survivor c2 k r " " none hc2pos hc2cw
                exact Or.inr ⟨c2, hc2eq, hcov⟩
            · exact ih4 col h hcol2
        | some c0 =>
          rw [add_character_some_eq]
          have hopen0 := hopen c0 rfl
          have hopen1 : ∀ c,
              some { c0 with text := c0.text ++ " ", cell_width := c0.cell_width + 1 } = some c →
              GoodOpen full r (k + 1) c := by
            intro c hc2
            cases hc2
            exact goodopen_extend full r k c0 hopen0
              (none_cell_not_blank full k (by rw [hcell, hc])) " "
          obtain ⟨ih0, ih1, ih2, ih3, ih4⟩ :=
            ih (k + 1) acc
              (some { c0 with text := c0.text ++ " ", cell_width := c0.cell_width + 1 })
              hsuf2 hk2 hopen1
          have hsurv := ih3 { c0 with text := c0.text ++ " ", cell_width := c0.cell_width + 1 } rfl
          refine ⟨ih0, ih1, ih2, ?_, ?_⟩
          · intro c hc2
            cases hc2
            rcases hsurv with ⟨c2, hc2mem, hc2pos, hc2cw⟩ | ⟨c2, hc2eq, hc2pos, hc2cw⟩
            · exact Or.inl ⟨c2, hc2mem, hc2pos, by simp only at hc2cw; omega⟩
            · exact Or.inr ⟨c2, hc2eq, hc2pos, by simp only at hc2cw; omega⟩
          · intro col hcol1 hcol2
            rcases Nat.eq_or_lt_of_le hcol1 with h | h
            · subst h
              rcases hsurv with ⟨c2, hc2mem, hc2pos, hc2cw⟩ | ⟨c2, hc2eq, hc2pos, hc2cw⟩
              · obtain ⟨hcov, hrow⟩ := covers_k_of_ext_survivor full c0 c2 r k hopen0
                  hc2pos (by simp only at hc2cw; omega)
                exact Or.inl ⟨c2, hc2mem, hrow, hcov⟩
              · obtain ⟨hcov, -⟩ := covers_k_of_ext_survivor full c0 c2 r k hopen0
                  hc2pos (by simp only at hc2cw; omega)
                exact Or.inr ⟨c2, hc2eq, hcov⟩
            · exact ih4 col h hcol2
    · -- cell = some (ch, st)
      rcases hemp : ch.isEmpty with - | -
      · -- non-empty text
        have hnotblank : ∀ s, full.get? k ≠ some (some ("", s)) :=
          nonempty_cell_not_blank ch st full k (by rw [hcell, hc]) hemp
        rcases hcm : command_matches cmd st with - | -
        · -- style mismatch: close the current command, start a new one
          have hcmd : ∃ c0, cmd = some c0 := by
            cases cmd with
            | none => exact absurd hcm (by simp [command_matches])
            | some c0 => exact ⟨c0, rfl⟩
          obtain ⟨c0, rfl⟩ := hcmd
          rw [step_cell_mismatch r acc (some c0) k ch st hemp hcm, add_character_none_eq]
          have hopen1 : ∀ c, some (DrawCommand.new ch 1 (k, r) st) = some c →
              GoodOpen full r (k + 1) c := by
            intro c hc2
            cases hc2
            exact goodopen_new full r k ch st hklt hnotblank
          obtain ⟨ih0, ih1, ih2, ih3, ih4⟩ :=
            ih (k + 1) (add_command acc (some c0)) (some (DrawCommand.new ch 1 (k, r) st))
              hsuf2 hk2 hopen1
          have hmemc0 : c0 ∈ add_command acc (some c0) := by
            simp [add_command]
          refine ⟨?_, ?_, ih2, ?_, ?_⟩
          · intro c hcacc
            exact ih0 c (by simp [add_command, hcacc])
          · intro c hcres
            rcases ih1 c hcres with hin | hgood
            · rcases (by simpa [add_command] using hin : c ∈ acc ∨ c = c0) with h | h
              · exact Or.inl h
              · subst h
                exact Or.inr (goodopen_to_closed full r k c (hopen c rfl) (le_of_lt hklt))
            · exact Or.inr hgood
          · intro c hc2
            cases hc2
            exact Or.inl ⟨c0, ih0 c0 hmemc0, rfl, le_rfl⟩
          · intro col hcol1 hcol2
            rcases Nat.eq_or_lt_of_le hcol1 with h | h
            · subst h
              rcases ih3 (DrawCommand.new ch 1 (k, r) st) rfl with
                ⟨c2, hc2mem, hc2pos, hc2cw⟩ | ⟨c2, hc2eq, hc2pos, hc2cw⟩
              · obtain ⟨hcov, hrow⟩ := covers_k_of_new_survivor c2 k r ch st hc2pos hc2cw
                exact Or.inl ⟨c2, hc2mem, hrow, hcov⟩
              · obtain ⟨hcov, -⟩ := covers_k_of_new_survivor c2 k r ch st hc2pos hc2cw
                exact Or.inr ⟨c2, hc2eq, hcov⟩
            · exact ih4 col h hcol2
        · -- style match: the character extends (or starts) the current command
          rw [step_cell_match r acc cmd k ch st hemp hcm]
          cases cmd with
          | none =>
            rw [add_character_none_eq]
            have hopen1 : ∀ c, some (DrawCommand.new ch 1 (k, r) st) = some c →
                GoodOpen full r (k + 1) c := by
              intro c hc2
              cases hc2
              exact goodopen_new full r k ch st hklt hnotblank
            obtain ⟨ih0, ih1, ih2, ih3, ih4⟩ :=
              ih (k + 1) acc (some (DrawCommand.new ch 1 (k, r) st)) hsuf2 hk2 hopen1
            refine ⟨ih0, ih1, ih2, ?_, ?_⟩
            · intro c hc2
              exact Option.noConfusion hc2
            · intro col hcol1 hcol2
              rcases Nat.eq_or_lt_of_le hcol1 with h | h
              · subst h
                rcases ih3 (DrawCommand.new ch 1 (k, r) st) rfl with
                  ⟨c2, hc2mem, hc2pos, hc2cw⟩ | ⟨c2, hc2eq, hc2pos, hc2cw⟩
                · obtain ⟨hcov, hrow⟩ := covers_k_of_new_survivor c2 k r ch st hc2pos hc2cw
                  exact Or.inl ⟨c2, hc2mem, hrow, hcov⟩
                · obtain ⟨hcov, -⟩ := covers_k_of_new_survivor c2 k r ch st hc2pos hc2cw
                  exact Or.inr ⟨c2, hc2eq, hcov⟩
              · exact ih4 col h hcol2
          | some c0 =>
            rw [add_character_some_eq]
            have hopen0 := hopen c0 rfl
            have hopen1 : ∀ c,
                some { c0 with text := c0.text ++ ch, cell_width := c0.cell_width + 1 } = some c →
                GoodOpen full r (k + 1) c := by
              intro c hc2
              cases hc2
              exact goodopen_extend full r k c0 hopen0 hnotblank ch
            obtain ⟨ih0, ih1, ih2, ih3, ih4⟩ :=
              ih (k + 1) acc
                (some { c0 with text := c0.text ++ ch, cell_width := c0.cell_width + 1 })
                hsuf2 hk2 hopen1
            have hsurv := ih3 { c0 with text := c0.text ++ ch, cell_width := c0.cell_width + 1 } rfl
            refine ⟨ih0, ih1, ih2, ?_, ?_⟩
            · intro c hc2
              cases hc2
              rcases hsurv with ⟨c2, hc2mem, hc2pos, hc2cw⟩ | ⟨c2, hc2eq, hc2pos, hc2cw⟩
              · exact Or.inl ⟨c2, hc2mem, hc2pos, by simp only at hc2cw; omega⟩
              · exact Or.inr ⟨c2, hc2eq, hc2pos, by simp only at hc2cw; omega⟩
            · intro col hcol1 hcol2
              rcases Nat.eq_or_lt_of_le hcol1 with h | h
              · subst h
                rcases hsurv with ⟨c2, hc2mem, hc2pos, hc2cw⟩ | ⟨c2, hc2eq, hc2pos, hc2cw⟩
                · obtain ⟨hcov, hrow⟩ := covers_k_of_ext_survivor full c0 c2 r k hopen0
                    hc2pos (by simp only at hc2cw; omega)
                  exact Or.inl ⟨c2, hc2mem, hrow, hcov⟩
                · obtain ⟨hcov, -⟩ := covers_k_of_ext_survivor full c0 c2 r k hopen0
                    hc2pos (by simp only at hc2cw; omega)
                  exact Or.inr ⟨c2, hc2eq, hcov⟩
              · exact ih4 col h hcol2
      · -- empty text: append a space and force-close the command
        rw [step_cell_empty r acc cmd k ch st hemp]
        cases cmd with
        | none =>
          rw [add_character_none_eq]
          obtain ⟨ih0, ih1, ih2, ih3, ih4⟩ :=
            ih (k + 1) (add_command acc (some (DrawCommand.new " " 1 (k, r) st))) none
              hsuf2 hk2 (fun c hc2 => Option.noConfusion hc2)
          have hmemnew : DrawCommand.new " " 1 (k, r) st ∈
              add_command acc (some (DrawCommand.new " " 1 (k, r) st)) := by
            simp [add_command]
          refine ⟨?_, ?_, ih2, ?_, ?_⟩
          · intro c hcacc
            exact ih0 c (by simp [add_command, hcacc])
          · intro c hcres
            rcases ih1 c hcres with hin | hgood
            · rcases (by simpa [add_command] using hin :
                  c ∈ acc ∨ c = DrawCommand.new " " 1 (k, r) st) with h | h
              · exact Or.inl h
              · subst h
                exact Or.inr (goodclosed_new full r k " " st hklt)
            · exact Or.inr hgood
          · intro c hc2
            exact Option.noConfusion hc2
          · intro col hcol1 hcol2
            rcases Nat.eq_or_lt_of_le hcol1 with h | h
            · subst h
              refine Or.inl ⟨DrawCommand.new " " 1 (k, r) st, ih0 _ hmemnew, rfl, ?_⟩
              exact ⟨le_rfl, by dsimp only [DrawCommand.new]; omega⟩
            · exact ih4 col h hcol2
        | some c0 =>
          rw [add_character_some_eq]
          have hopen0 := hopen c0 rfl
          obtain ⟨ih0, ih1, ih2, ih3, ih4⟩ :=
            ih (k + 1)
              (add_command acc
                (some { c0 with text := c0.text ++ " ", cell_width := c0.cell_width + 1 }))
              none hsuf2 hk2 (fun c hc2 => Option.noConfusion hc2)
          have hmemext : { c0 with text := c0.text ++ " ", cell_width := c0.cell_width + 1 } ∈
              add_command acc
                (some { c0 with text := c0.text ++ " ", cell_width := c0.cell_width + 1 }) := by
            simp [add_command]
          refine ⟨?_, ?_, ih2, ?_, ?_⟩
          · intro c hcacc
            exact ih0 c (by simp [add_command, hcacc])
          · intro c hcres
            rcases ih1 c hcres with hin | hgood
            · rcases (by simpa [add_command] using hin :
                  c ∈ acc ∨
                    c = { c0 with text := c0.text ++ " ", cell_width := c0.cell_width + 1 }) with
                h | h
              · exact Or.inl h
              · subst h
                exact Or.inr (goodopen_widen full r k c0 hopen0 hklt " ")
            · exact Or.inr hgood
          · intro c hc2
            cases hc2
            refine Or.inl ⟨{ c0 with text := c0.text ++ " ", cell_width := c0.cell_width + 1 },
              ih0 _ hmemext, rfl, by simp only; omega⟩
          · intro col hcol1 hcol2
            rcases Nat.eq_or_lt_of_le hcol1 with h | h
            · subst h
              obtain ⟨hcov, hrow⟩ := covers_k_of_ext_survivor full c0
                { c0 with text := c0.text ++ " ", cell_width := c0.cell_width + 1 } r k
                hopen0 rfl (by simp only; omega)
              exact Or.inl ⟨_, ih0 _ hmemext, hrow, hcov⟩
            · exact ih4 col h hcol2

theorem build_row_char (r : Nat) (row : List GridCell) (acc : List DrawCommand) :
    (∀ c ∈ acc, c ∈ build_row r acc row) ∧
    (∀ c ∈ build_row r acc row, c ∈ acc ∨ GoodClosed row r c) ∧
    (∀ col, col < row.length →
      ∃ c ∈ build_row r acc row, c.grid_position.2 = r ∧ CoversCol c col) := by
  obtain ⟨h0, h1, h2, -, h4⟩ :=
    build_row_fold_inv r row row 0 acc none (fun m => by simp) (by simp)
      (fun c hc => Option.noConfusion hc)
  have henum : row.enum = List.enumFrom 0 row := rfl
  refine ⟨?_, ?_, ?_⟩
  · intro c hc
    have := h0 c hc
    simp only [build_row, henum]
    cases hsnd : (List.enumFrom 0 row |>.foldl (row_cell_step r) (acc, none)).2 with
    | none => simpa [add_command, hsnd] using this
    | some c2 => simp [add_command, hsnd, this]
  · intro c hc
    simp only [build_row, henum] at hc
    cases hsnd : (List.enumFrom 0 row |>.foldl (row_cell_step r) (acc, none)).2 with
    | none =>
      rw [hsnd] at hc
      simp only [add_command] at hc
      exact h1 c hc
    | some c2 =>
      rw [hsnd] at hc
      simp only [add_command, List.mem_append, List.mem_singleton] at hc
      rcases hc with hc | hc
      · exact h1 c hc
      · subst hc
        exact Or.inr (goodopen_to_closed row r row.length c (h2 c hsnd) le_rfl)
  · intro col hcol
    rcases h4 col (Nat.zero_le col) hcol with ⟨c, hcmem, hcrow, hccov⟩ | ⟨c, hceq, hccov⟩
    · refine ⟨c, ?_, hcrow, hccov⟩
      simp only [build_row, henum]
      cases hsnd : (List.enumFrom 0 row |>.foldl (row_cell_step r) (acc, none)).2 with
      | none => simpa [add_command, hsnd] using hcmem
      | some c2 => simp [add_command, hsnd, hcmem]
    · refine ⟨c, ?_, (h2 c hceq).1, hccov⟩
      simp only [build_row, henum]
      rw [hceq]
      simp [add_command]

theorem rows_fold_char :
    ∀ (rs : List (List GridCell)) (k : Nat) (acc : List DrawCommand),
      (∀ c ∈ acc,
        c ∈ (List.enumFrom k rs).foldl (fun acc rrow => build_row rrow.1 acc rrow.2) acc) ∧
      (∀ c ∈ (List.enumFrom k rs).foldl (fun acc rrow => build_row rrow.1 acc rrow.2) acc,
        c ∈ acc ∨ ∃ m row, rs.get? m = some row ∧ GoodClosed row (k + m) c) ∧
      (∀ m row, rs.get? m = some row → ∀ col, col < row.length →
        ∃ c ∈ (List.enumFrom k rs).foldl (fun acc rrow => build_row rrow.1 acc rrow.2) acc,
          c.grid_position.2 = k + m ∧ CoversCol c col) := by
  intro rs
  induction rs with
  | nil =>
    intro k acc
    refine ⟨fun c hc => hc, fun c hc => Or.inl hc, ?_⟩
    intro m row hm
    simp at hm
  | cons r0 rest ih =>
    intro k acc
    rw [List.enumFrom_cons, List.foldl_cons]
    obtain ⟨b0, b1, b2⟩ := build_row_char k r0 acc
    obtain ⟨ih0, ih1, ih2⟩ := ih (k + 1) (build_row k acc r0)
    refine ⟨?_, ?_, ?_⟩
    · intro c hc
      exact ih0 c (b0 c hc)
    · intro c hc
      rcases ih1 c hc with hin | ⟨m, row, hget, hgood⟩
      · rcases b1 c hin with hin2 | hgood
        · exact Or.inl hin2
        · exact Or.inr ⟨0, r0, rfl, by simpa using hgood⟩
      · exact Or.inr ⟨m + 1, row, by simpa using hget, by
          rw [show k + (m + 1) = (k + 1) + m by omega]
          exact hgood⟩
    · intro m row hget col hcol
      cases m with
      | zero =>
        simp only [List.get?_cons_zero, Option.some.injEq] at hget
        subst hget
        obtain ⟨c, hcmem, hcrow, hccov⟩ := b2 col hcol
        exact ⟨c, ih0 c hcmem, by simpa using hcrow, hccov⟩
      | succ m2 =>
        simp only [List.get?_cons_succ] at hget
        obtain ⟨c, hcmem, hcrow, hccov⟩ := ih2 m2 row hget col hcol
        exact ⟨c, hcmem, by rw [hcrow]; omega, hccov⟩

theorem build_cmds_goodclosed (e : Editor) (c : DrawCommand)
    (hc : c ∈ (build_draw_commands e).1.1) :
    ∃ r row, e.rows.get? r = some row ∧ GoodClosed row r c := by
  have hpre : c ∈ e.rows.enum.foldl (fun acc rrow => build_row rrow.1 acc rrow.2) [] := by
    have heq : (build_draw_commands e).1.1 =
        (e.rows.enum.foldl (fun acc rrow => build_row rrow.1 acc rrow.2) []).filter
          (command_filter e e.size.1) := rfl
    rw [heq] at hc
    exact (List.mem_filter.mp hc).1
  obtain ⟨-, h1, -⟩ := rows_fold_char e.rows 0 []
  rcases h1 c hpre with hin | ⟨m, row, hget, hgood⟩
  · simp at hin
  · exact ⟨m, row, hget, by simpa using hgood⟩

/-- Claim C3, amended: every empty-text cell contributes exactly one
space to the current run and forces it to close immediately, so no
emitted draw command ever contains an empty-text cell anywhere but at
its last covered cell; a `None` cell also contributes a single space
but does NOT force a close (it only closes the preceding run when that
run's style differs from `None`), so its space can be followed by
further style-`None` characters in the same command
(`C3_counterexample`). -/
theorem C3_theorem :
    (∀ (r col_index : Nat) (acc : List DrawCommand) (cmd : Option DrawCommand)
        (st : Option Style),
      row_cell_step r (acc, cmd) (col_index, some ("", st)) =
        (add_command acc (add_character cmd " " r col_index st), none)) ∧
    (∀ (e : Editor), ∀ c ∈ (build_draw_commands e).1.1, ∀ k, k + 1 < c.cell_width → ∀ s,
      (e.rows.getD c.grid_position.2 []).get? (c.grid_position.1 + k) ≠
        some (some ("", s))) := by
  constructor
  · intro r ci acc cmd st
    exact step_cell_empty r acc cmd ci "" st rfl
  · intro e c hc k hk s
    obtain ⟨r, row, hget, hgood⟩ := build_cmds_goodclosed e c hc
    have hrow : e.rows.getD c.grid_position.2 [] = row := by
      rw [hgood.1]
      unfold List.getD
      rw [hget]
      rfl
    rw [hrow]
    exact hgood.2.2.2 k hk s

/-- Claim C3, witness: the amended theorem applied to `editorTwoOne`
and the single command " a" it compiles to, at the first covered
cell. -/
theorem C3_witness :
    (editorTwoOne.rows.getD 0 []).get? (0 + 0) ≠ some (some ("", some styleSeven)) :=
  C3_theorem.2 editorTwoOne ⟨" a", 2, (0, 0), none, 1⟩ (by decide) 0 (by decide)
    (some styleSeven)

theorem is_dirty_all_false (e : Editor) (n : Nat) (h : e.dirty = List.replicate n false)
    (x y : Nat) : e.is_dirty_cell x y = false := by
  unfold Editor.is_dirty_cell
  split
  · rw [h]; exact getD_replicate_false n _
  · rfl

theorem command_filter_false (e : Editor) (n width : Nat)
    (h : e.dirty = List.replicate n false) (c : DrawCommand) :
    command_filter e width c = false := by
  unfold command_filter dirty_in_span
  rw [List.any_eq_false]
  intro x hx
  rw [is_dirty_all_false e n h]
  simp

theorem C8_part1 (e : Editor) :
    (build_draw_commands (build_draw_commands e).2).1 = ([], false) := by
  have hfilters :
      ∀ l : List DrawCommand,
        l.filter (command_filter (build_draw_commands e).2 (build_draw_commands e).2.size.1)
          = [] := by
    intro l
    rw [List.filter_eq_nil]
    intro c hc
    rw [command_filter_false (build_draw_commands e).2 (e.size.1 * e.size.2) _ rfl c]
    · simp
  show ((_, _) : List DrawCommand × Bool) = ([], false)
  rw [Prod.mk.injEq]
  exact ⟨hfilters _, rfl⟩

theorem C8_part2 (e : Editor)
    (hg : e.grid.length = e.size.1 * e.size.2)
    (hd : e.dirty.length = e.size.1 * e.size.2)
    (hdirty : ∃ i, e.dirty.get? i = some true) :
    (build_draw_commands e).1.1 ≠ [] := by
  obtain ⟨i, hi⟩ := hdirty
  have hilt : i < e.dirty.length := by
    rcases List.get?_eq_some.mp hi with ⟨hlt, -⟩
    exact hlt
  have hiwh : i < e.size.1 * e.size.2 := by omega
  have hw : 0 < e.size.1 := by
    rcases Nat.eq_zero_or_pos e.size.1 with h | h
    · rw [h] at hiwh; simp at hiwh
    · exact h
  have hh : 0 < e.size.2 := by
    rcases Nat.eq_zero_or_pos e.size.2 with h | h
    · rw [h] at hiwh; simp at hiwh
    · exact h
  set x := i % e.size.1 with hxdef
  set y := i / e.size.1 with hydef
  have hx : x < e.size.1 := Nat.mod_lt i hw
  have hy : y < e.size.2 := by
    rw [hydef]
    exact Nat.div_lt_of_lt_mul hiwh
  have hxy : x + y * e.size.1 = i := Nat.mod_add_div' i e.size.1
  -- the row at index y
  have hrowget : e.rows.get? y = some ((e.grid.drop (y * e.size.1)).take e.size.1) := by
    unfold Editor.rows
    rw [List.get?_map, List.get?_range hy]
    rfl
  have hrowlen : ((e.grid.drop (y * e.size.1)).take e.size.1).length = e.size.1 := by
    rw [List.length_take, List.length_drop, hg]
    have : (y + 1) * e.size.1 ≤ e.size.2 * e.size.1 :=
      Nat.mul_le_mul_right _ (by omega)
    have h2 : y * e.size.1 + e.size.1 ≤ e.size.1 * e.size.2 := by
      calc y * e.size.1 + e.size.1 = (y + 1) * e.size.1 := by ring
        _ ≤ e.size.2 * e.size.1 := this
        _ = e.size.1 * e.size.2 := Nat.mul_comm _ _
    omega
  -- a command of row y covering column x exists in the unfiltered list
  obtain ⟨-, -, hcov⟩ := rows_fold_char e.rows 0 []
  obtain ⟨c, hcmem, hcrow, hccov⟩ :=
    hcov y _ hrowget x (by rw [hrowlen]; exact hx)
  simp only [Nat.zero_add] at hcrow
  -- the command passes the dirty filter
  have hdirtycell : e.is_dirty_cell x y = true := by
    unfold Editor.is_dirty_cell
    rw [cell_index_in e x y hx hy, hxy]
    show e.dirty.getD i false = true
    unfold List.getD
    rw [hi]
    rfl
  have hfilter : command_filter e e.size.1 c = true := by
    unfold command_filter dirty_in_span
    rw [List.any_eq_true]
    refine ⟨x, ?_, by rw [hcrow]; exact hdirtycell⟩
    obtain ⟨hcov1, hcov2⟩ := hccov
    have hlo : (max ((c.grid_position.1 : Int) - 1) 0).toNat ≤ x := by
      have h1 : (max ((c.grid_position.1 : Int) - 1) 0) ≤ (c.grid_position.1 : Int) := by
        rw [max_le_iff]
        constructor <;> omega
      omega
    have hhi : x < min (c.grid_position.1 + c.cell_width + 1) e.size.1 := by
      rw [Nat.lt_min]
      exact ⟨by omega, hx⟩
    rw [List.mem_range'_1]
    constructor
    · exact hlo
    · omega
  have hcfiltered : c ∈ (build_draw_commands e).1.1 := by
    have heq : (build_draw_commands e).1.1 =
        (e.rows.enum.foldl (fun acc rrow => build_row rrow.1 acc rrow.2) []).filter
          (command_filter e e.size.1) := rfl
    rw [heq]
    exact List.mem_filter.mpr ⟨hcmem, hfilter⟩
  exact List.ne_nil_of_mem hcfiltered

theorem event_pres_should_clear (pf : String → Option ℚ) (e : Editor) (ev : RedrawEvent)
    (e2 : Editor) (hnr : ∀ w h, ev ≠ RedrawEvent.Resize w h) (hnc : ev ≠ RedrawEvent.Clear)
    (h : handle_redraw_event pf e ev = some e2) : e2.should_clear = e.should_clear := by
  cases ev with
  | SetTitle t =>
    simp only [handle_redraw_event, Option.some.injEq] at h
    subst h; rfl
  | ModeInfoSet ms =>
    simp only [handle_redraw_event, Option.some.injEq] at h
    subst h; rfl
  | OptionSet o =>
    simp only [handle_redraw_event, Option.some.injEq] at h
    subst h
    exact (setOption_pres pf e o).2.2.2
  | ModeChange i =>
    simp only [handle_redraw_event, Option.some.injEq] at h
    subst h; rfl
  | BusyStart =>
    simp only [handle_redraw_event, Option.some.injEq] at h
    subst h; rfl
  | BusyStop =>
    simp only [handle_redraw_event, Option.some.injEq] at h
    subst h; rfl
  | Flush =>
    simp only [handle_redraw_event, Option.some.injEq] at h
    subst h; rfl
  | Resize w h2 => exact absurd rfl (hnr w h2)
  | DefaultColorsSet c =>
    simp only [handle_redraw_event, Option.some.injEq] at h
    subst h; rfl
  | HighlightAttributesDefine i st =>
    simp only [handle_redraw_event, Option.some.injEq] at h
    subst h; rfl
  | GridLine row colStart cells =>
    simp only [handle_redraw_event] at h
    exact (dgl_pres e row colStart cells e2 h).2.2.2
  | Clear => exact absurd rfl hnc
  | CursorGoto r c =>
    simp only [handle_redraw_event, Option.some.injEq] at h
    subst h; rfl
  | Scroll top bottom left right rows columns =>
    simp only [handle_redraw_event, Option.some.injEq] at h
    subst h
    exact scroll_region_pres (fun e => e.should_clear) e top bottom left right rows columns
      (fun e y x => scroll_copy_cell_should_clear rows columns y e x)
  | Unknown =>
    simp only [handle_redraw_event, Option.some.injEq] at h
    subst h; rfl

/-- Claim C8: compiling twice with no intervening events yields an
empty list and a false clear flag on the second call; the first call is
non-empty whenever some cell is dirty (under the length invariant); the
reported `should_clear` is the pre-reset flag and the stored flag is
reset to false; the flag is set by construction, clear and resize and
preserved by every other successfully handled event, so it reads true
exactly once per clear/resize/construction. -/
theorem C8_theorem :
    (∀ e : Editor, (build_draw_commands (build_draw_commands e).2).1 = ([], false)) ∧
    (∀ e : Editor,
      e.grid.length = e.size.1 * e.size.2 →
      e.dirty.length = e.size.1 * e.size.2 →
      (∃ i, e.dirty.get? i = some true) →
      (build_draw_commands e).1.1 ≠ []) ∧
    (∀ e : Editor, (build_draw_commands e).1.2 = e.should_clear) ∧
    (∀ e : Editor, (build_draw_commands e).2.should_clear = false) ∧
    ((∀ d : Nat × Nat, (Editor.new d).should_clear = true) ∧
     (∀ e : Editor, e.clear.should_clear = true) ∧
     (∀ (e : Editor) (d : Nat × Nat), (e.resize d).should_clear = true)) ∧
    (∀ (pf : String → Option ℚ) (e : Editor) (ev : RedrawEvent) (e2 : Editor),
      (∀ w h, ev ≠ RedrawEvent.Resize w h) → ev ≠ RedrawEvent.Clear →
      handle_redraw_event pf e ev = some e2 → e2.should_clear = e.should_clear) :=
  ⟨C8_part1, C8_part2, fun e => rfl, fun e => rfl,
   ⟨fun d => rfl, fun e => rfl, fun e d => rfl⟩,
   event_pres_should_clear⟩

/-- Claim C8, witness: the non-empty-first-call part applied to
`editorTwoOne` (dirty at index 0) and the flag-preservation part
applied to a `SetTitle` event. -/
theorem C8_witness :
    (build_draw_commands editorTwoOne).1.1 ≠ [] ∧
    ({ editorTwoOne with title := "t" } : Editor).should_clear = editorTwoOne.should_clear :=
  ⟨C8_theorem.2.1 editorTwoOne (by decide) (by decide) ⟨0, by decide⟩,
   C8_theorem.2.2.2.2.2 (fun _ => none) editorTwoOne (RedrawEvent.SetTitle "t")
     { editorTwoOne with title := "t" }
     (fun w h hne => RedrawEvent.noConfusion hne)
     (fun hne => RedrawEvent.noConfusion hne) rfl⟩

/-! ### Claim C7: the scroll region -/

theorem mem_intRange (a b x : Int) : x ∈ intRange a b ↔ a ≤ x ∧ x < b := by
  unfold intRange
  simp only [List.mem_map, List.mem_range]
  constructor
  · rintro ⟨i, hi, rfl⟩
    omega
  · rintro ⟨h1, h2⟩
    exact ⟨(x - a).toNat, by omega, by omega⟩

theorem intRange_cons (a b : Int) (h : a < b) : intRange a b = a :: intRange (a + 1) b := by
  unfold intRange
  have hn : (b - a).toNat = (b - (a + 1)).toNat + 1 := by omega
  rw [hn, List.range_succ_eq_map, List.map_cons, List.map_map]
  refine List.cons_eq_cons.mpr ⟨by simp, ?_⟩
  apply List.map_congr_left
  intro i hi
  simp only [Function.comp_apply, Nat.succ_eq_add_one]
  push_cast
  ring

theorem flat_index_lt (w h x y : Nat) (hx : x < w) (hy : y < h) : x + y * w < w * h := by
  calc x + y * w < w + y * w := by omega
    _ = (y + 1) * w := by ring
    _ ≤ h * w := Nat.mul_le_mul_right _ (by omega)
    _ = w * h := Nat.mul_comm _ _

theorem getElem?_eq_some_getD {α : Type} (l : List α) (i : Nat) (d : α) (hi : i < l.length) :
    l[i]? = some (l.getD i d) := by
  unfold List.getD
  rw [List.get?_eq_getElem?, List.getElem?_eq_getElem hi]
  rfl

theorem scroll_copy_cell_inst (e : Editor) (x y : Int)
    (hw : 10 ≤ e.size.1) (hh : 10 ≤ e.size.2)
    (hx : 0 ≤ x ∧ x < 10) (hy : 2 ≤ y ∧ y < 10) :
    scroll_copy_cell 2 0 y e x =
      { e with
        grid := e.grid.set (x.toNat + (y - 2).toNat * e.size.1)
          (e.grid.getD (x.toNat + y.toNat * e.size.1) none),
        dirty := e.dirty.set (x.toNat + (y - 2).toNat * e.size.1) true } := by
  have hsrc : e.cell_index x.toNat y.toNat = some (x.toNat + y.toNat * e.size.1) :=
    cell_index_in e _ _ (by omega) (by omega)
  have hdst : e.cell_index (x - 0).toNat (y - 2).toNat =
      some ((x - 0).toNat + (y - 2).toNat * e.size.1) :=
    cell_index_in e _ _ (by omega) (by omega)
  simp only [scroll_copy_cell, hsrc, hdst]
  have hset : ∀ e2 : Editor, e2.size = e.size →
      e2.set_dirty_cell (x - 0).toNat (y - 2).toNat =
        { e2 with dirty := e2.dirty.set ((x - 0).toNat + (y - 2).toNat * e.size.1) true } := by
    intro e2 hsz
    unfold Editor.set_dirty_cell
    rw [cell_index_congr e2 e hsz, hdst]
  rw [hset { e with
      grid := e.grid.set ((x - 0).toNat + (y - 2).toNat * e.size.1)
        (e.grid.getD (x.toNat + y.toNat * e.size.1) none) } rfl]
  have hxx : (x - 0).toNat = x.toNat := by omega
  rw [hxx]

theorem scroll_row_fold_char (y : Int) (hy : 2 ≤ y ∧ y < 10) :
    ∀ (xs : List Int) (e : Editor),
      (∀ x ∈ xs, 0 ≤ x ∧ x < 10) →
      10 ≤ e.size.1 → 10 ≤ e.size.2 →
      e.grid.length = e.size.1 * e.size.2 →
      e.dirty.length = e.size.1 * e.size.2 →
      ((xs.foldl (scroll_copy_cell 2 0 y) e).size = e.size ∧
       (xs.foldl (scroll_copy_cell 2 0 y) e).grid.length = e.grid.length ∧
       (xs.foldl (scroll_copy_cell 2 0 y) e).dirty.length = e.dirty.length) ∧
      (∀ j : Nat,
        ((∃ x ∈ xs, j = x.toNat + (y - 2).toNat * e.size.1) →
          (xs.foldl (scroll_copy_cell 2 0 y) e).grid[j]? = e.grid[(j + 2 * e.size.1)]? ∧
          (xs.foldl (scroll_copy_cell 2 0 y) e).dirty[j]? = some true) ∧
        ((¬ ∃ x ∈ xs, j = x.toNat + (y - 2).toNat * e.size.1) →
          (xs.foldl (scroll_copy_cell 2 0 y) e).grid[j]? = e.grid[j]? ∧
          (xs.foldl (scroll_copy_cell 2 0 y) e).dirty[j]? = e.dirty[j]?)) := by
  intro xs
  induction xs with
  | nil =>
    intro e hxs hw hh hg hd
    refine ⟨⟨rfl, rfl, rfl⟩, fun j => ⟨?_, fun _ => ⟨rfl, rfl⟩⟩⟩
    rintro ⟨x, hx, -⟩
    simp at hx
  | cons x0 rest ih =>
    intro e hxs hw hh hg hd
    have hx0 : 0 ≤ x0 ∧ x0 < 10 := hxs x0 (List.mem_cons_self x0 rest)
    rw [List.foldl_cons, scroll_copy_cell_inst e x0 y hw hh hx0 hy]
    set d0 : Nat := x0.toNat + (y - 2).toNat * e.size.1 with hd0
    set s0 : Nat := x0.toNat + y.toNat * e.size.1 with hs0
    set e1 : Editor :=
      { e with
        grid := e.grid.set d0 (e.grid.getD s0 none),
        dirty := e.dirty.set d0 true } with he1
    have hsz1 : e1.size = e.size := rfl
    have hg1 : e1.grid.length = e.grid.length := by simp [he1]
    have hdl1 : e1.dirty.length = e.dirty.length := by simp [he1]
    have hd0lt : d0 < e.grid.length := by
      rw [hg]
      exact flat_index_lt _ _ _ _ (by omega) (by omega)
    have hd0lt2 : d0 < e.dirty.length := by
      rw [hd]
      exact flat_index_lt _ _ _ _ (by omega) (by omega)
    have hs0lt : s0 < e.grid.length := by
      rw [hg]
      exact flat_index_lt _ _ _ _ (by omega) (by omega)
    have hd0s0 : d0 + 2 * e.size.1 = s0 := by
      rw [hd0, hs0]
      have : (y - 2).toNat + 2 = y.toNat := by omega
      calc x0.toNat + (y - 2).toNat * e.size.1 + 2 * e.size.1
          = x0.toNat + ((y - 2).toNat + 2) * e.size.1 := by ring
        _ = x0.toNat + y.toNat * e.size.1 := by rw [this]
    obtain ⟨⟨ihsz, ihg, ihd⟩, ihchar⟩ :=
      ih e1 (fun x hx => hxs x (List.mem_cons_of_mem x0 hx)) (by rw [hsz1]; exact hw)
        (by rw [hsz1]; exact hh) (by rw [hg1, hsz1]; exact hg) (by rw [hdl1, hsz1]; exact hd)
    have hrowdiff : ∀ (xa xb : Int), 0 ≤ xa → xa < 10 → 0 ≤ xb → xb < 10 →
        xa.toNat + y.toNat * e.size.1 ≠ xb.toNat + (y - 2).toNat * e.size.1 := by
      intro xa xb ha1 ha2 hb1 hb2 hcontr
      obtain ⟨-, hyeq⟩ :=
        flat_index_inj e.size.1 _ _ _ _ (by omega) (by omega) hcontr
      omega
    refine ⟨⟨ihsz.trans hsz1, ihg.trans hg1, ihd.trans hdl1⟩, ?_⟩
    intro j
    have hchar := ihchar j
    rw [hsz1] at hchar
    constructor
    · rintro ⟨x, hxmem, hjx⟩
      by_cases htail : ∃ x ∈ rest, j = x.toNat + (y - 2).toNat * e.size.1
      · obtain ⟨hgridj, hdirtyj⟩ := hchar.1 htail
        refine ⟨?_, hdirtyj⟩
        rw [hgridj, he1]
        show (e.grid.set d0 _)[j + 2 * e.size.1]? = _
        rw [List.getElem?_set_ne]
        obtain ⟨x2, hx2mem, hjx2⟩ := htail
        have hx2 : 0 ≤ x2 ∧ x2 < 10 := hxs x2 (List.mem_cons_of_mem x0 hx2mem)
        rw [hjx2]
        have : x2.toNat + (y - 2).toNat * e.size.1 + 2 * e.size.1
            = x2.toNat + y.toNat * e.size.1 := by
          have h2 : (y - 2).toNat + 2 = y.toNat := by omega
          calc x2.toNat + (y - 2).toNat * e.size.1 + 2 * e.size.1
              = x2.toNat + ((y - 2).toNat + 2) * e.size.1 := by ring
            _ = x2.toNat + y.toNat * e.size.1 := by rw [h2]
        rw [this]
        exact fun hcontr =>
          hrowdiff x2 x0 (by omega) (by omega) (by omega) (by omega) hcontr.symm
      · have hjd0 : j = d0 := by
          rcases List.mem_cons.mp hxmem with h | h
          · rw [h] at hjx; exact hjx
          · exact absurd ⟨x, h, hjx⟩ htail
        obtain ⟨hgridj, hdirtyj⟩ := hchar.2 htail
        subst hjd0
        constructor
        · rw [hgridj, he1]
          show (e.grid.set d0 _)[d0]? = _
          rw [List.getElem?_set_eq hd0lt, hd0s0]
          exact (getElem?_eq_some_getD e.grid s0 none hs0lt).symm
        · rw [hdirtyj, he1]
          show (e.dirty.set d0 true)[d0]? = some true
          exact List.getElem?_set_eq hd0lt2
    · intro hnone
      have htail : ¬ ∃ x ∈ rest, j = x.toNat + (y - 2).toNat * e.size.1 := by
        rintro ⟨x, hxm, hjx⟩
        exact hnone ⟨x, List.mem_cons_of_mem x0 hxm, hjx⟩
      have hjd0 : j ≠ d0 := by
        intro hcontr
        exact hnone ⟨x0, List.mem_cons_self x0 rest, hcontr⟩
      obtain ⟨hgridj, hdirtyj⟩ := hchar.2 htail
      constructor
      · rw [hgridj, he1]
        show (e.grid.set d0 _)[j]? = _
        rw [List.getElem?_set_ne (fun h => hjd0 h.symm)]
      · rw [hdirtyj, he1]
        show (e.dirty.set d0 true)[j]? = _
        rw [List.getElem?_set_ne (fun h => hjd0 h.symm)]

theorem scroll_row_inst (y : Int) (hy : 2 ≤ y ∧ y < 10) (e : Editor) (hh : 10 ≤ e.size.2) :
    scroll_row 0 10 2 0 e y = ((intRange 0 10).reverse).foldl (scroll_copy_cell 2 0 y) e := by
  simp only [scroll_row]
  rw [if_pos, if_neg]
  · norm_num
  · norm_num
  · constructor
    · omega
    · have : (10 : Int) ≤ (e.size.2 : Int) := by exact_mod_cast hh
      omega

theorem mem_xiter (x : Int) : x ∈ (intRange 0 10).reverse ↔ 0 ≤ x ∧ x < 10 := by
  rw [List.mem_reverse, mem_intRange]

theorem intRange_self (a b : Int) (h : b ≤ a) : intRange a b = [] := by
  unfold intRange
  have : (b - a).toNat = 0 := by omega
  rw [this]
  rfl

theorem scroll_outer_char :
    ∀ (n : Nat) (k : Int), 2 ≤ k → k + n = 10 →
    ∀ e : Editor,
      10 ≤ e.size.1 → 10 ≤ e.size.2 →
      e.grid.length = e.size.1 * e.size.2 →
      e.dirty.length = e.size.1 * e.size.2 →
      (((intRange k 10).foldl (scroll_row 0 10 2 0) e).size = e.size ∧
       ((intRange k 10).foldl (scroll_row 0 10 2 0) e).grid.length = e.grid.length ∧
       ((intRange k 10).foldl (scroll_row 0 10 2 0) e).dirty.length = e.dirty.length) ∧
      (∀ j : Nat,
        ((∃ x : Nat, x < 10 ∧ ∃ yy : Int, k ≤ yy ∧ yy < 10 ∧
            j = x + (yy - 2).toNat * e.size.1) →
          ((intRange k 10).foldl (scroll_row 0 10 2 0) e).grid[j]? =
            e.grid[(j + 2 * e.size.1)]? ∧
          ((intRange k 10).foldl (scroll_row 0 10 2 0) e).dirty[j]? = some true) ∧
        ((¬ ∃ x : Nat, x < 10 ∧ ∃ yy : Int, k ≤ yy ∧ yy < 10 ∧
            j = x + (yy - 2).toNat * e.size.1) →
          ((intRange k 10).foldl (scroll_row 0 10 2 0) e).grid[j]? = e.grid[j]? ∧
          ((intRange k 10).foldl (scroll_row 0 10 2 0) e).dirty[j]? = e.dirty[j]?)) := by
  intro n
  induction n with
  | zero =>
    intro k hk2 hk10 e hw hh hg hd
    rw [intRange_self k 10 (by omega)]
    refine ⟨⟨rfl, rfl, rfl⟩, fun j => ⟨?_, fun _ => ⟨rfl, rfl⟩⟩⟩
    rintro ⟨x, hx, yy, hy1, hy2, -⟩
    omega
  | succ n2 ih =>
    intro k hk2 hk10 e hw hh hg hd
    rw [intRange_cons k 10 (by omega), List.foldl_cons,
      scroll_row_inst k ⟨hk2, by omega⟩ e hh]
    obtain ⟨⟨isz, ig, idl⟩, ichar⟩ :=
      scroll_row_fold_char k ⟨hk2, by omega⟩ ((intRange 0 10).reverse) e
        (fun x hx => (mem_xiter x).mp hx) hw hh hg hd
    set e1 : Editor := ((intRange 0 10).reverse).foldl (scroll_copy_cell 2 0 k) e with he1
    have hxs_iff : ∀ j : Nat,
        (∃ x ∈ (intRange 0 10).reverse, j = x.toNat + (k - 2).toNat * e.size.1) ↔
        (∃ x : Nat, x < 10 ∧ j = x + (k - 2).toNat * e.size.1) := by
      intro j
      constructor
      · rintro ⟨x, hxm, rfl⟩
        obtain ⟨hx1, hx2⟩ := (mem_xiter x).mp hxm
        exact ⟨x.toNat, by omega, rfl⟩
      · rintro ⟨x, hx, rfl⟩
        refine ⟨(x : Int), (mem_xiter x).mpr ⟨by omega, by omega⟩, by simp⟩
    obtain ⟨⟨ihsz, ihg, ihd⟩, ihchar⟩ :=
      ih (k + 1) (by omega) (by omega) e1 (by rw [isz]; exact hw) (by rw [isz]; exact hh)
        (by rw [ig, isz]; exact hg) (by rw [idl, isz]; exact hd)
    rw [isz] at ihchar
    refine ⟨⟨ihsz.trans isz, ihg.trans ig, ihd.trans idl⟩, ?_⟩
    intro j
    have hichar := ichar j
    have hihchar := ihchar j
    have hrow_ne : ∀ (xa : Nat) (yya : Int) (xb : Nat), xa < 10 → k + 1 ≤ yya → yya < 10 →
        xb < 10 → xa + yya.toNat * e.size.1 ≠ xb + (k - 2).toNat * e.size.1 := by
      intro xa yya xb ha hya1 hya2 hb hcontr
      obtain ⟨-, hyeq⟩ := flat_index_inj e.size.1 _ _ _ _ (by omega) (by omega) hcontr
      omega
    constructor
    · rintro ⟨x, hx, yy, hyy1, hyy2, hj⟩
      by_cases hT : ∃ x2 : Nat, x2 < 10 ∧ ∃ yy2 : Int, k + 1 ≤ yy2 ∧ yy2 < 10 ∧
          j = x2 + (yy2 - 2).toNat * e.size.1
      · obtain ⟨hgridj, hdirtyj⟩ := hihchar.1 hT
        refine ⟨?_, hdirtyj⟩
        rw [hgridj]
        obtain ⟨x2, hx2, yy2, hyy21, hyy22, hj2⟩ := hT
        have hnotdest : ¬ ∃ xx ∈ (intRange 0 10).reverse,
            j + 2 * e.size.1 = xx.toNat + (k - 2).toNat * e.size.1 := by
          rw [hxs_iff]
          rintro ⟨x3, hx3, hcontr⟩
          have hj2w : j + 2 * e.size.1 = x2 + yy2.toNat * e.size.1 := by
            rw [hj2]
            have h2 : (yy2 - 2).toNat + 2 = yy2.toNat := by omega
            calc x2 + (yy2 - 2).toNat * e.size.1 + 2 * e.size.1
                = x2 + ((yy2 - 2).toNat + 2) * e.size.1 := by ring
              _ = x2 + yy2.toNat * e.size.1 := by rw [h2]
          rw [hj2w] at hcontr
          exact hrow_ne x2 yy2 x3 hx2 hyy21 hyy22 hx3 hcontr
        exact ((ichar (j + 2 * e.size.1)).2 hnotdest).1
      · have hyyk : yy = k := by
          by_contra hne
          exact hT ⟨x, hx, yy, by omega, hyy2, hj⟩
        subst hyyk
        have hdest : ∃ xx ∈ (intRange 0 10).reverse,
            j = xx.toNat + (yy - 2).toNat * e.size.1 := by
          rw [hxs_iff]
          exact ⟨x, hx, hj⟩
        obtain ⟨hg1, hd1⟩ := hichar.1 hdest
        have hnotT : ¬ ∃ x2 : Nat, x2 < 10 ∧ ∃ yy2 : Int, yy + 1 ≤ yy2 ∧ yy2 < 10 ∧
            j = x2 + (yy2 - 2).toNat * e.size.1 := hT
        obtain ⟨hg2, hd2⟩ := hihchar.2 hnotT
        exact ⟨hg2.trans hg1, hd2.trans hd1⟩
    · intro hnone
      have hnotT : ¬ ∃ x2 : Nat, x2 < 10 ∧ ∃ yy2 : Int, k + 1 ≤ yy2 ∧ yy2 < 10 ∧
          j = x2 + (yy2 - 2).toNat * e.size.1 := by
        rintro ⟨x2, hx2, yy2, h1, h2, h3⟩
        exact hnone ⟨x2, hx2, yy2, by omega, h2, h3⟩
      have hnotdest : ¬ ∃ xx ∈ (intRange 0 10).reverse,
          j = xx.toNat + (k - 2).toNat * e.size.1 := by
        rw [hxs_iff]
        rintro ⟨x2, hx2, h2⟩
        exact hnone ⟨x2, hx2, k, le_rfl, by omega, h2⟩
      obtain ⟨hg2, hd2⟩ := hihchar.2 hnotT
      obtain ⟨hg1, hd1⟩ := hichar.2 hnotdest
      exact ⟨hg2.trans hg1, hd2.trans hd1⟩

theorem scroll_region_inst (e : Editor) :
    scroll_region e 0 10 0 10 2 0 = (intRange 2 10).foldl (scroll_row 0 10 2 0) e := by
  simp only [scroll_region]
  rw [if_pos (by norm_num)]
  norm_num

/-- Claim C7: on any grid at least 10x10 (under the length invariant),
`Scroll(top=0, bottom=10, left=0, right=10, rows=2, cols=0)` copies the
content previously at row `r`, columns [0,10), to row `r-2` for every
`r` in [2,10) and marks those destination cells dirty; every cell
outside the destination rectangle (columns [0,10) x rows [0,8)) keeps
its previous content and dirty bit — in particular rows [8,10) are
untouched by the copy, and no copy reads a source row below 2. -/
theorem C7_theorem (e : Editor) (hw : 10 ≤ e.size.1) (hh : 10 ≤ e.size.2)
    (hg : e.grid.length = e.size.1 * e.size.2) (hd : e.dirty.length = e.size.1 * e.size.2) :
    (∀ r : Nat, 2 ≤ r → r < 10 → ∀ c : Nat, c < 10 →
      (scroll_region e 0 10 0 10 2 0).grid[(c + (r - 2) * e.size.1)]? =
        e.grid[(c + r * e.size.1)]? ∧
      (scroll_region e 0 10 0 10 2 0).dirty[(c + (r - 2) * e.size.1)]? = some true) ∧
    (∀ j : Nat, (¬ ∃ c : Nat, c < 10 ∧ ∃ d : Nat, d < 8 ∧ j = c + d * e.size.1) →
      (scroll_region e 0 10 0 10 2 0).grid[j]? = e.grid[j]? ∧
      (scroll_region e 0 10 0 10 2 0).dirty[j]? = e.dirty[j]?) ∧
    (∀ r : Nat, 8 ≤ r → r < 10 → ∀ c : Nat, c < e.size.1 →
      (scroll_region e 0 10 0 10 2 0).grid[(c + r * e.size.1)]? =
        e.grid[(c + r * e.size.1)]?) := by
  rw [scroll_region_inst]
  obtain ⟨-, hchar⟩ := scroll_outer_char 8 2 (by norm_num) (by norm_num) e hw hh hg hd
  refine ⟨?_, ?_, ?_⟩
  · intro r hr2 hr10 c hc
    have hwit : ∃ x : Nat, x < 10 ∧ ∃ yy : Int, 2 ≤ yy ∧ yy < 10 ∧
        c + (r - 2) * e.size.1 = x + (yy - 2).toNat * e.size.1 := by
      refine ⟨c, hc, (r : Int), by omega, by omega, ?_⟩
      have : ((r : Int) - 2).toNat = r - 2 := by omega
      rw [this]
    obtain ⟨hg1, hd1⟩ := (hchar (c + (r - 2) * e.size.1)).1 hwit
    refine ⟨?_, hd1⟩
    rw [hg1]
    have hidx : c + (r - 2) * e.size.1 + 2 * e.size.1 = c + r * e.size.1 := by
      have hr : r - 2 + 2 = r := by omega
      calc c + (r - 2) * e.size.1 + 2 * e.size.1
          = c + ((r - 2) + 2) * e.size.1 := by ring
        _ = c + r * e.size.1 := by rw [hr]
    rw [hidx]
  · intro j hj
    refine (hchar j).2 ?_
    rintro ⟨x, hx, yy, hyy1, hyy2, hjeq⟩
    exact hj ⟨x, hx, (yy - 2).toNat, by omega, hjeq⟩
  · intro r hr8 hr10 c hc
    have hnot : ¬ ∃ x : Nat, x < 10 ∧ ∃ yy : Int, 2 ≤ yy ∧ yy < 10 ∧
        c + r * e.size.1 = x + (yy - 2).toNat * e.size.1 := by
      rintro ⟨x, hx, yy, hyy1, hyy2, hjeq⟩
      obtain ⟨-, hyeq⟩ := flat_index_inj e.size.1 _ _ _ _ hc (by omega) hjeq
      omega
    exact ((hchar (c + r * e.size.1)).2 hnot).1

/-- Claim C7, witness: the copy part applied to the fresh 10x10 editor
at source row 2, column 0. -/
theorem C7_witness :
    (scroll_region editorTen 0 10 0 10 2 0).grid[(0 + (2 - 2) * editorTen.size.1)]? =
      editorTen.grid[(0 + 2 * editorTen.size.1)]? ∧
    (scroll_region editorTen 0 10 0 10 2 0).dirty[(0 + (2 - 2) * editorTen.size.1)]? =
      some true :=
  (C7_theorem editorTen (by decide) (by decide) (by decide) (by decide)).1 2
    (by decide) (by decide) 0 (by decide)
